import Mathlib

/-!
Verification of the tokenizer / recursive-descent parser / semantic-analysis /
code-generation chain of the voice-to-code repository.

The Lean definitions below are a shallow embedding of the Python sources
`utils.py`, `config.py`, `lexical_analyzer.py`, `syntax_analyzer.py`,
`semantic_analyzer.py` and `code_generator.py`.  Each definition mirrors the
corresponding Python function; machine-level caveats of the modelling are
noted in the doc comments.  Character classes follow the ASCII ranges written
in the Python regexes; where Python uses Unicode-aware classes (`\w`, `\d`,
`\s`, `str.lower`) the model restricts them to their ASCII behaviour, which is
the fragment the verified properties depend on.
-/

/-! ## Character classes (from the regexes in `utils.py` / `lexical_analyzer.py`) -/

/-- `\s` of the Python regexes, restricted to ASCII whitespace. -/
def isSpaceChar (c : Char) : Bool :=
  c = ' ' || c = '\t' || c = '\n' || c = '\r' || c = '\x0b' || c = '\x0c'

/-- `[a-zA-Z_]`, the first character class of the identifier pattern. -/
def isIdentStart (c : Char) : Bool :=
  (97 ≤ c.toNat && c.toNat ≤ 122) || (65 ≤ c.toNat && c.toNat ≤ 90) || c = '_'

/-- `[a-zA-Z0-9_]`, the continuation class of the identifier pattern. -/
def isIdentCont (c : Char) : Bool :=
  isIdentStart c || (48 ≤ c.toNat && c.toNat ≤ 57)

/-- `\d` of the number patterns, restricted to ASCII digits. -/
def isDigitChar (c : Char) : Bool :=
  48 ≤ c.toNat && c.toNat ≤ 57

/-- `\w` of `normalize_text`, restricted to ASCII word characters. -/
def isWordChar (c : Char) : Bool :=
  isIdentCont c

/-- The punctuation kept by `normalize_text`: `.,;:?!¿¡`. -/
def keptPunct : List Char := ['.', ',', ';', ':', '?', '!', '¿', '¡']

/-- A character that survives the deletion step of `normalize_text`
(`re.sub(r'[^\w\s.,;:?!¿¡]', '', text)`). -/
def isKeptChar (c : Char) : Bool :=
  isWordChar c || isSpaceChar c || keptPunct.contains c

/-- `str.lower`, restricted to its ASCII action. -/
def lowerChar (c : Char) : Char :=
  if 65 ≤ c.toNat && c.toNat ≤ 90 then Char.ofNat (c.toNat + 32) else c

/-- The operator characters of the pattern `[+\-*/=<>!]=?`. -/
def opChars : List Char := ['+', '-', '*', '/', '=', '<', '>', '!']

/-- The delimiter characters of the pattern `[\(\)\[\]\{\},;:]`. -/
def delimChars : List Char := ['(', ')', '[', ']', '\x7b', '\x7d', ',', ';', ':']

/-- The single-quote character. -/
def squote : Char := Char.ofNat 39

/-! ## `utils.normalize_text` -/

/-- `re.sub(r'\s+', ' ', text)`: each maximal whitespace run becomes one space. -/
def collapseWs : List Char → List Char
  | [] => []
  | [c] => if isSpaceChar c then [' '] else [c]
  | c :: d :: cs =>
    if isSpaceChar c then
      (if isSpaceChar d then collapseWs (d :: cs) else ' ' :: collapseWs (d :: cs))
    else c :: collapseWs (d :: cs)

/-- `str.strip`: drop whitespace from both ends. -/
def stripChars (cs : List Char) : List Char :=
  ((cs.dropWhile isSpaceChar).reverse.dropWhile isSpaceChar).reverse

/-- `utils.normalize_text`: lower-case, delete characters outside
`[\w\s.,;:?!¿¡]`, collapse whitespace runs to single spaces, strip. -/
def normalize_text (s : String) : String :=
  String.mk (stripChars (collapseWs ((s.data.map lowerChar).filter isKeptChar)))

/-! ## Tokens and the configuration tables (`config.py`) -/

/-- A lexical token: type tag, literal value, position.  The position is an
integer because the parser uses a synthetic EOF token with position `-1`. -/
structure Token where
  type : String
  value : String
  position : Int
deriving DecidableEq, Repr

/-- `KEYWORD_MAPPING` from `config.py`, in declaration order. -/
def KEYWORD_MAPPING : List (String × String) :=
  [("si", "if"), ("sino", "else"), ("para", "for"), ("mientras", "while"),
   ("en", "in"), ("rango", "range"), ("función", "def"), ("funcion", "def"),
   ("devolver", "return"), ("verdadero", "True"), ("falso", "False"),
   ("y", "and"), ("o", "or"), ("no", "not"), ("imprimir", "print"),
   ("clase", "class")]

/-- `SPECIAL_TOKENS` from `config.py`, in declaration order. -/
def SPECIAL_TOKENS : List (String × List String) :=
  [("VARIABLE", ["var", "variable"]),
   ("FUNCTION", ["función", "funcion", "def", "definir"]),
   ("LOOP", ["para", "mientras", "for", "while"]),
   ("CONDITION", ["si", "if", "sino", "else"]),
   ("OPERATOR", ["más", "mas", "menos", "por", "dividido", "igual", "mayor", "menor"]),
   ("DATA_TYPE", ["entero", "flotante", "cadena", "booleano", "lista", "diccionario"])]

/-- The hard-coded Python keyword list of `_identify_word`. -/
def pythonKeywords : List String :=
  ["def", "if", "else", "elif", "for", "while", "in", "return", "and", "or",
   "not", "True", "False", "None", "print", "class"]

/-- Dictionary lookup on an association list (`word in mapping` / `mapping[word]`). -/
def lookupMap (m : List (String × String)) (k : String) : Option String :=
  (m.find? (fun p => p.1 == k)).map (·.2)

/-- `LexicalAnalyzer._identify_word` applied to the already lower-cased word. -/
def identify_word (word : String) (pos : Nat) : Token :=
  if pythonKeywords.contains word then ⟨"KEYWORD", word, (pos : Int)⟩
  else
    match lookupMap KEYWORD_MAPPING word with
    | some v => ⟨"KEYWORD", v, (pos : Int)⟩
    | none =>
      match SPECIAL_TOKENS.find? (fun p => p.2.contains word) with
      | some p => ⟨p.1, word, (pos : Int)⟩
      | none => ⟨"IDENTIFIER", word, (pos : Int)⟩

/-! ## The token patterns of `_build_token_patterns`, in declared order -/

/-- One entry of `self.patterns`.  The order of `lexPatterns` is the declared
order of the Python list. -/
inductive LexPat where
  | wordPat | floatPat | intPat | opPat | delimPat | strDPat | strSPat | wsPat
deriving DecidableEq, Repr

def lexPatterns : List LexPat :=
  [.wordPat, .floatPat, .intPat, .opPat, .delimPat, .strDPat, .strSPat, .wsPat]

/-- Anchored regex match (`regex.match(text, position)`) for one pattern:
returns the matched span and the remaining characters. -/
def patMatch : LexPat → List Char → Option (List Char × List Char)
  | .wordPat, [] => none
  | .wordPat, c :: cs =>
    if isIdentStart c then
      let p := cs.span isIdentCont
      some (c :: p.1, p.2)
    else none
  | .floatPat, cs =>
    let p := cs.span isDigitChar
    if p.1.isEmpty then none
    else
      match p.2 with
      | '.' :: r2 =>
        let q := r2.span isDigitChar
        if q.1.isEmpty then none else some (p.1 ++ '.' :: q.1, q.2)
      | _ => none
  | .intPat, cs =>
    let p := cs.span isDigitChar
    if p.1.isEmpty then none else some (p.1, p.2)
  | .opPat, [] => none
  | .opPat, c :: cs =>
    if opChars.contains c then
      match cs with
      | '=' :: r => some ([c, '='], r)
      | _ => some ([c], cs)
    else none
  | .delimPat, [] => none
  | .delimPat, c :: cs =>
    if delimChars.contains c then some ([c], cs) else none
  | .strDPat, [] => none
  | .strDPat, c :: cs =>
    if c = '"' then
      let p := cs.span (· != '"')
      match p.2 with
      | d :: r => some ('"' :: p.1 ++ [d], r)
      | [] => none
    else none
  | .strSPat, [] => none
  | .strSPat, c :: cs =>
    if c = squote then
      let p := cs.span (· != squote)
      match p.2 with
      | d :: r => some (squote :: p.1 ++ [d], r)
      | [] => none
    else none
  | .wsPat, cs =>
    let p := cs.span isSpaceChar
    if p.1.isEmpty then none else some (p.1, p.2)

/-- The token built for a match of the given pattern (`None` for whitespace). -/
def patToken : LexPat → List Char → Nat → Option Token
  | .wordPat, m, pos => some (identify_word (String.mk (m.map lowerChar)) pos)
  | .floatPat, m, pos => some ⟨"FLOAT", String.mk m, (pos : Int)⟩
  | .intPat, m, pos => some ⟨"INTEGER", String.mk m, (pos : Int)⟩
  | .opPat, m, pos => some ⟨"OPERATOR", String.mk m, (pos : Int)⟩
  | .delimPat, m, pos => some ⟨"DELIMITER", String.mk m, (pos : Int)⟩
  | .strDPat, m, pos => some ⟨"STRING", String.mk m, (pos : Int)⟩
  | .strSPat, m, pos => some ⟨"STRING", String.mk m, (pos : Int)⟩
  | .wsPat, _, _ => none

/-- The `for pattern, token_func in self.patterns` loop: first pattern that
matches at the current position wins. -/
def firstMatchAux : List LexPat → List Char → Option (LexPat × List Char × List Char)
  | [], _ => none
  | p :: ps, cs =>
    match patMatch p cs with
    | some r => some (p, r.1, r.2)
    | none => firstMatchAux ps cs

/-- The scanning loop of `tokenize`, with explicit fuel (every loop iteration
consumes at least one character, so `cs.length` fuel suffices; see
`scanAux_fuel_sufficient`). -/
def scanAux : Nat → List Char → Nat → List Token
  | 0, _, _ => []
  | _ + 1, [], _ => []
  | f + 1, c :: cs, pos =>
    match firstMatchAux lexPatterns (c :: cs) with
    | some (p, m, r) => (patToken p m pos).toList ++ scanAux f r (pos + m.length)
    | none => scanAux f cs (pos + 1)

/-- The scanning loop of `tokenize` at adequate fuel. -/
def scan (cs : List Char) (pos : Nat) : List Token :=
  scanAux cs.length cs pos

/-- `LexicalAnalyzer.tokenize`: normalize, scan, append the EOF token at the
final position (the scan always ends exactly at the text length). -/
def tokenize (s : String) : List Token :=
  let n := (normalize_text s).data
  scan n 0 ++ [⟨"EOF", "", (n.length : Int)⟩]

/-- `LexicalAnalyzer.map_to_python_tokens`. -/
def map_to_python_tokens (ts : List Token) : List Token :=
  ts.map (fun t =>
    if t.type = "KEYWORD" then
      match lookupMap KEYWORD_MAPPING t.value with
      | some v => ⟨t.type, v, t.position⟩
      | none => t
    else t)

/-! ## The parser (`syntax_analyzer.py`)

The AST node of the parser.  `children` is a bespoke list type mutually
defined with the node type so that every traversal below is compiled by
structural recursion (and therefore evaluates by kernel reduction). -/

mutual
inductive ASTNode where
  | mk (ntype : String) (nval : Option String) (children : ASTList)

inductive ASTList where
  | nil
  | cons (head : ASTNode) (tail : ASTList)
end

def ASTNode.ntype : ASTNode → String
  | .mk t _ _ => t

def ASTNode.nval : ASTNode → Option String
  | .mk _ v _ => v

def ASTNode.children : ASTNode → ASTList
  | .mk _ _ cs => cs

def ASTList.length : ASTList → Nat
  | .nil => 0
  | .cons _ tl => tl.length + 1

def ASTList.ofList : List ASTNode → ASTList
  | [] => .nil
  | n :: ns => .cons n (ASTList.ofList ns)

/-- The two exception sites of the parser (`SyntaxError` raised by `expect`
and the missing-`in` raise of `parse_loop`), plus fuel exhaustion of the
embedding, which `parser_fuel_sufficient` below proves unreachable. -/
inductive ParseErr where
  | expectErr (expected : String) (found : String)
  | inErr
  | fuelErr
deriving DecidableEq, Repr

/-- `SyntaxAnalyzer.current_token`: the token at the cursor, or a synthetic
EOF token with position `-1` past the end. -/
def currentTok (tks : List Token) (i : Nat) : Token :=
  tks.getD i ⟨"EOF", "", -1⟩

/-- `SyntaxAnalyzer.peek_next_token`. -/
def peekTok (tks : List Token) (i : Nat) : Token :=
  tks.getD (i + 1) ⟨"EOF", "", -1⟩

/-- The assignment lookahead condition of `parse_expression_statement`. -/
def assignLookahead (tks : List Token) (i : Nat) : Bool :=
  (currentTok tks i).type == "IDENTIFIER" && (peekTok tks i).type == "OPERATOR"
    && (peekTok tks i).value == "="

/-- The function-call recognition condition of `parse_expression` (tested on
the token after a consumed identifier). -/
def callLookahead (tks : List Token) (i : Nat) : Bool :=
  (currentTok tks i).type == "DELIMITER" && (currentTok tks i).value == "("

/-- The "consume one token if the current token is this delimiter/keyword"
step that the parser performs for optional punctuation: returns the advanced
cursor when the current token matches the given type and value, the original
cursor otherwise. -/
def skipIf (tks : List Token) (i : Nat) (ty v : String) : Nat :=
  if (currentTok tks i).type = ty ∧ (currentTok tks i).value = v then i + 1 else i

/-! The recursive-descent functions.  Each mirrors the Python method of the
same name; the `Nat` argument after the fuel is the cursor index
(`current_token_index`), returned updated.  Fuel decreases by one at every
mutual call; `parser_fuel_sufficient` shows the fuel used by `parse` never
runs out. -/

mutual
/-- `SyntaxAnalyzer.parse_program`. -/
def parse_programF : Nat → List Token → Except ParseErr (ASTNode × Nat)
  | 0, _ => .error .fuelErr
  | f + 1, tks =>
    match program_loopF f tks 0 [] with
    | .ok (stmts, j) => .ok (.mk "PROGRAM" none (ASTList.ofList stmts), j)
    | .error e => .error e

/-- The `while current_token().type != 'EOF'` loop of `parse_program`. -/
def program_loopF : Nat → List Token → Nat → List ASTNode →
    Except ParseErr (List ASTNode × Nat)
  | 0, _, _, _ => .error .fuelErr
  | f + 1, tks, i, acc =>
    if (currentTok tks i).type = "EOF" then .ok (acc, i)
    else
      match parse_statementF f tks i with
      | .ok (st, j) => program_loopF f tks j (acc ++ [st])
      | .error e => .error e
termination_by structural f => f

/-- `SyntaxAnalyzer.parse_statement`. -/
def parse_statementF : Nat → List Token → Nat → Except ParseErr (ASTNode × Nat)
  | 0, _, _ => .error .fuelErr
  | f + 1, tks, i =>
    let t := currentTok tks i
    if t.type = "KEYWORD" ∧ t.value = "def" then parse_function_definitionF f tks i
    else if t.type = "KEYWORD" ∧ t.value = "if" then parse_if_statementF f tks i
    else if t.type = "KEYWORD" ∧ (t.value = "for" ∨ t.value = "while") then
      parse_loopF f tks i
    else parse_expression_statementF f tks i
termination_by structural f => f

/-- `SyntaxAnalyzer.parse_function_definition`.  Both branches of the
name check consume the current token and use its value, so they are a single
path here (the branch only differs in the printed warning). -/
def parse_function_definitionF : Nat → List Token → Nat →
    Except ParseErr (ASTNode × Nat)
  | 0, _, _ => .error .fuelErr
  | f + 1, tks, i =>
    let nameVal := (currentTok tks (i + 1)).value
    let i3 := skipIf tks (i + 2) "DELIMITER" "("
    match (if ¬((currentTok tks i3).type = "DELIMITER" ∧ (currentTok tks i3).value = ")")
           then params_loopF f tks i3 [] else .ok ([], i3)) with
    | .error e => .error e
    | .ok (params, j) =>
      match parse_blockF f tks (skipIf tks j "DELIMITER" ")") with
      | .error e => .error e
      | .ok (body, k) =>
        .ok (.mk "FUNCTION_DEF" (some nameVal)
          (.cons (.mk "PARAMETERS" none (ASTList.ofList params)) (.cons body .nil)), k)
termination_by structural f => f

/-- The `while True` parameter loop of `parse_function_definition`. -/
def params_loopF : Nat → List Token → Nat → List ASTNode →
    Except ParseErr (List ASTNode × Nat)
  | 0, _, _, _ => .error .fuelErr
  | f + 1, tks, i, acc =>
    if (currentTok tks i).type = "IDENTIFIER" then
      let v := (currentTok tks i).value
      let acc2 := acc ++ [ASTNode.mk "PARAMETER" (some v) .nil]
      if (currentTok tks (i + 1)).type = "DELIMITER" ∧ (currentTok tks (i + 1)).value = ","
      then params_loopF f tks (i + 2) acc2
      else .ok (acc2, i + 1)
    else .ok (acc, i)
termination_by structural f => f

/-- `SyntaxAnalyzer.parse_if_statement`. -/
def parse_if_statementF : Nat → List Token → Nat → Except ParseErr (ASTNode × Nat)
  | 0, _, _ => .error .fuelErr
  | f + 1, tks, i =>
    match parse_expressionF f tks (i + 1) with
    | .error e => .error e
    | .ok (cond, j) =>
      match parse_blockF f tks j with
      | .error e => .error e
      | .ok (thenB, k) =>
        if (currentTok tks k).type = "KEYWORD" ∧ (currentTok tks k).value = "else" then
          match parse_blockF f tks (k + 1) with
          | .error e => .error e
          | .ok (elseB, m) =>
            .ok (.mk "IF_STATEMENT" none
              (.cons (.mk "CONDITION" none (.cons cond .nil))
                (.cons (.mk "THEN" none (.cons thenB .nil))
                  (.cons (.mk "ELSE" none (.cons elseB .nil)) .nil))), m)
        else
          .ok (.mk "IF_STATEMENT" none
            (.cons (.mk "CONDITION" none (.cons cond .nil))
              (.cons (.mk "THEN" none (.cons thenB .nil)) .nil)), k)
termination_by structural f => f

/-- `SyntaxAnalyzer.parse_loop` (both `for` and `while`). -/
def parse_loopF : Nat → List Token → Nat → Except ParseErr (ASTNode × Nat)
  | 0, _, _ => .error .fuelErr
  | f + 1, tks, i =>
    let t := currentTok tks i
    if t.value = "for" then
      if (currentTok tks (i + 1)).type = "IDENTIFIER" then
        let v := (currentTok tks (i + 1)).value
        if (currentTok tks (i + 2)).type = "KEYWORD" ∧ (currentTok tks (i + 2)).value = "in"
        then
          match parse_expressionF f tks (i + 3) with
          | .error e => .error e
          | .ok (iter, j) =>
            match parse_blockF f tks j with
            | .error e => .error e
            | .ok (body, k) =>
              .ok (.mk "FOR_LOOP" none
                (.cons (.mk "VARIABLE" (some v) .nil)
                  (.cons (.mk "ITERABLE" none (.cons iter .nil))
                    (.cons (.mk "BODY" none (.cons body .nil)) .nil))), k)
        else .error .inErr
      else .error (.expectErr "IDENTIFIER" (currentTok tks (i + 1)).type)
    else
      match parse_expressionF f tks (i + 1) with
      | .error e => .error e
      | .ok (cond, j) =>
        match parse_blockF f tks j with
        | .error e => .error e
        | .ok (body, k) =>
          .ok (.mk "WHILE_LOOP" none
            (.cons (.mk "CONDITION" none (.cons cond .nil))
              (.cons (.mk "BODY" none (.cons body .nil)) .nil)), k)
termination_by structural f => f

/-- `SyntaxAnalyzer.parse_block`: consume `':'` when present (otherwise only a
warning is printed), then parse at most one statement. -/
def parse_blockF : Nat → List Token → Nat → Except ParseErr (ASTNode × Nat)
  | 0, _, _ => .error .fuelErr
  | f + 1, tks, i =>
    let i2 := skipIf tks i "DELIMITER" ":"
    if (currentTok tks i2).type = "EOF" then .ok (.mk "BLOCK" none .nil, i2)
    else
      match parse_statementF f tks i2 with
      | .error e => .error e
      | .ok (st, j) => .ok (.mk "BLOCK" none (.cons st .nil), j)
termination_by structural f => f

/-- `SyntaxAnalyzer.parse_expression_statement`. -/
def parse_expression_statementF : Nat → List Token → Nat →
    Except ParseErr (ASTNode × Nat)
  | 0, _, _ => .error .fuelErr
  | f + 1, tks, i =>
    if (currentTok tks i).type = "IDENTIFIER" ∧ (peekTok tks i).type = "OPERATOR"
        ∧ (peekTok tks i).value = "=" then
      let v := (currentTok tks i).value
      match parse_expressionF f tks (i + 2) with
      | .error e => .error e
      | .ok (ex, j) =>
        .ok (.mk "ASSIGNMENT" none
          (.cons (.mk "VARIABLE" (some v) .nil) (.cons ex .nil)), j)
    else parse_expressionF f tks i

/-- `SyntaxAnalyzer.parse_expression`. -/
def parse_expressionF : Nat → List Token → Nat → Except ParseErr (ASTNode × Nat)
  | 0, _, _ => .error .fuelErr
  | f + 1, tks, i =>
    let t := currentTok tks i
    if t.type = "INTEGER" ∨ t.type = "FLOAT" then
      .ok (.mk "LITERAL" (some t.value) .nil, i + 1)
    else if t.type = "STRING" then
      .ok (.mk "LITERAL" (some t.value) .nil, i + 1)
    else if t.type = "IDENTIFIER" then
      if (currentTok tks (i + 1)).type = "DELIMITER" ∧ (currentTok tks (i + 1)).value = "("
      then
        match (if ¬((currentTok tks (i + 2)).type = "DELIMITER"
                    ∧ (currentTok tks (i + 2)).value = ")")
               then args_loopF f tks (i + 2) [] else .ok ([], i + 2)) with
        | .error e => .error e
        | .ok (args, k) =>
          if (currentTok tks k).type = "DELIMITER" then
            .ok (.mk "FUNCTION_CALL" (some t.value)
              (.cons (.mk "ARGUMENTS" none (ASTList.ofList args)) .nil), k + 1)
          else .error (.expectErr "DELIMITER" (currentTok tks k).type)
      else .ok (.mk "VARIABLE" (some t.value) .nil, i + 1)
    else if t.type = "DELIMITER" ∧ t.value = "(" then
      match parse_expressionF f tks (i + 1) with
      | .error e => .error e
      | .ok (ex, j) =>
        if (currentTok tks j).type = "DELIMITER" then .ok (ex, j + 1)
        else .error (.expectErr "DELIMITER" (currentTok tks j).type)
    else .ok (.mk "EXPRESSION" (some t.value) .nil, i + 1)
termination_by structural f => f

/-- The `while True` argument loop inside `parse_expression`. -/
def args_loopF : Nat → List Token → Nat → List ASTNode →
    Except ParseErr (List ASTNode × Nat)
  | 0, _, _, _ => .error .fuelErr
  | f + 1, tks, i, acc =>
    match parse_expressionF f tks i with
    | .error e => .error e
    | .ok (arg, j) =>
      if (currentTok tks j).type = "DELIMITER" ∧ (currentTok tks j).value = "," then
        args_loopF f tks (j + 1) (acc ++ [arg])
      else .ok (acc ++ [arg], j)
termination_by structural f => f
end

/-- The fuel `parse` uses; `parser_fuel_sufficient` shows it is enough for
every token list. -/
def parserFuel (tks : List Token) : Nat := 6 * tks.length + 18

/-- `SyntaxAnalyzer.parse`: run the recursive descent, catch any raised
error and turn it into `none`. -/
def parse (tks : List Token) : Option ASTNode :=
  match parse_programF (parserFuel tks) tks with
  | .ok (ast, _) => some ast
  | .error _ => none

/-! ## The symbol table and semantic analyzer (`semantic_analyzer.py`)

Python uses both strings and `None` (an `ASTNode.value` of a malformed node)
as dictionary keys, so symbol names and scope names are `Option String`
(`none` models Python `None`). -/

/-- A symbol-table entry.  `sval` is the unused `value` field (always `None`
in the analyzer). -/
structure PySymbol where
  sname : Option String
  stype : String
  sscope : Option String
  sval : Option String
deriving DecidableEq, Repr

/-- Dictionary lookup on an association list keyed by `Option String`. -/
def assocGet {α : Type} : List (Option String × α) → Option String → Option α
  | [], _ => none
  | (k, v) :: rest, key => if k = key then some v else assocGet rest key

/-- Dictionary assignment `d[k] = v`: replace the first binding of `k`, or
append a new binding (Python dicts keep insertion order). -/
def assocSet {α : Type} : List (Option String × α) → Option String → α →
    List (Option String × α)
  | [], key, v => [(key, v)]
  | (k, w) :: rest, key, v =>
    if k = key then (k, v) :: rest else (k, w) :: assocSet rest key v

/-- `SymbolTable`: scope name → (symbol name → symbol), plus the current
scope name. -/
structure SymbolTable where
  symbols : List (Option String × List (Option String × PySymbol))
  currentScope : Option String
deriving DecidableEq, Repr

/-- `SymbolTable.__init__`. -/
def initTable : SymbolTable := ⟨[(some "global", [])], some "global"⟩

/-- `SymbolTable.enter_scope`. -/
def enter_scope (st : SymbolTable) (name : Option String) : SymbolTable :=
  { symbols := if (assocGet st.symbols name).isSome then st.symbols
               else st.symbols ++ [(name, [])],
    currentScope := name }

/-- `SymbolTable.exit_scope`: unconditionally back to the global scope. -/
def exit_scope (st : SymbolTable) : SymbolTable :=
  { st with currentScope := some "global" }

/-- `SymbolTable.add_symbol`, partial form: `none` models the `KeyError`
Python would raise if the current scope were missing from the map
(`symbol_table_inv` shows this never happens). -/
def add_symbol? (st : SymbolTable) (name : Option String) (ty : String) :
    Option SymbolTable :=
  match assocGet st.symbols st.currentScope with
  | none => none
  | some scopeMap =>
    let scopeMap2 := assocSet scopeMap name ⟨name, ty, st.currentScope, none⟩
    some { st with symbols := assocSet st.symbols st.currentScope scopeMap2 }

/-- Total wrapper for `add_symbol` used by the analyzer; it agrees with
`add_symbol?` whenever the current scope exists. -/
def add_symbol (st : SymbolTable) (name : Option String) (ty : String) :
    SymbolTable :=
  (add_symbol? st name ty).getD st

/-- `SymbolTable.lookup`, partial form: the outer `none` models the
`KeyError` of `self.symbols[self.current_scope]` (or of the global map)
when the scope is missing. -/
def lookup? (st : SymbolTable) (name : Option String) : Option (Option PySymbol) :=
  match assocGet st.symbols st.currentScope with
  | none => none
  | some cur =>
    match assocGet cur name with
    | some s => some (some s)
    | none =>
      match assocGet st.symbols (some "global") with
      | none => none
      | some g => some (assocGet g name)

/-- Total wrapper for `lookup` used by the analyzer; it agrees with `lookup?`
whenever the scopes it touches exist. -/
def lookup (st : SymbolTable) (name : Option String) : Option PySymbol :=
  (lookup? st name).getD none

/-- The public `SymbolTable` operations, for stating the scope-map invariant
over arbitrary call sequences (`lookup` reads no state and is included as an
identity operation). -/
inductive STOp where
  | enterOp (name : Option String)
  | exitOp
  | addOp (name : Option String) (ty : String)
  | lookupOp (name : Option String)
deriving DecidableEq, Repr

/-- Apply one `SymbolTable` operation. -/
def applySTOp (st : SymbolTable) : STOp → SymbolTable
  | .enterOp n => enter_scope st n
  | .exitOp => exit_scope st
  | .addOp n ty => add_symbol st n ty
  | .lookupOp _ => st

/-- The semantic error list entries, one constructor per `self.errors.append`
site of `semantic_analyzer.py` (structured instead of Spanish message
strings; each carries the interpolated name). -/
inductive SemErr where
  | funcAlreadyDefined (name : Option String)
  | funcNotDefined (name : Option String)
  | notAFunction (name : Option String)
  | varNotDefined (name : Option String)
deriving DecidableEq, Repr

/-- The analyzer state: symbol table plus collected error list. -/
structure AState where
  table : SymbolTable
  errors : List SemErr
deriving DecidableEq, Repr

/-- The one exception the traversal can raise — an out-of-range
`node.children[k]` access (`IndexError`) — plus fuel exhaustion of the
embedding, which `analyzer_fuel_sufficient` proves unreachable at the fuel
`analyze` supplies. -/
inductive AExc where
  | idxErr
  | fuelErr
deriving DecidableEq, Repr

mutual
/-- Fuel bound for the analyzer traversal of a node: one unit per call
frame along any path (`analyzer_fuel_sufficient` shows it is enough). -/
def costN : ASTNode → Nat
  | .mk _ _ cs => costL cs + 1

/-- Fuel bound for the analyzer traversal of a child list. -/
def costL : ASTList → Nat
  | .nil => 1
  | .cons c rest => max (costN c) (costL rest) + 1
end

/-- The parameter-registration loop of `_analyze_function_def` (adds each
child of the PARAMETERS node as a PARAMETER symbol; not recursive). -/
def addParams (st : SymbolTable) : ASTList → SymbolTable
  | .nil => st
  | .cons p rest => addParams (add_symbol st p.nval "PARAMETER") rest

mutual
/-- `SemanticAnalyzer._analyze_node`: the dispatching recursive traversal.
An exception carries the state at the raise site (Python keeps the mutated
`self` fields when an exception propagates).  The `Nat` argument is fuel,
decremented at every recursive call; `analyze` supplies `costN ast`, which
`analyzer_fuel_sufficient` proves is always enough. -/
def analyzeNodeF : Nat → ASTNode → AState → Except (AExc × AState) AState
  | 0, _, s => .error (.fuelErr, s)
  | f + 1, .mk t v cs, s =>
    if t = "PROGRAM" then analyzeChildrenF f cs s
    else if t = "FUNCTION_DEF" then
      let s1 := if (lookup s.table v).isSome
        then { s with errors := s.errors ++ [.funcAlreadyDefined v] } else s
      let s2 := { s1 with table := enter_scope (add_symbol s1.table v "FUNCTION") v }
      match cs with
      | .nil => .error (.idxErr, s2)
      | .cons params rest =>
        let s3 := { s2 with table := addParams s2.table params.children }
        match rest with
        | .nil => .error (.idxErr, s3)
        | .cons body _ =>
          match analyzeNodeF f body s3 with
          | .error e => .error e
          | .ok s4 => .ok { s4 with table := exit_scope s4.table }
    else if t = "BLOCK" then analyzeChildrenF f cs s
    else if t = "IF_STATEMENT" then
      match cs with
      | .nil => .error (.idxErr, s)
      | .cons c0 rest =>
        match analyzeNodeF f c0 s with
        | .error e => .error e
        | .ok s1 =>
          match rest with
          | .nil => .error (.idxErr, s1)
          | .cons c1 rest2 =>
            match analyzeNodeF f c1 s1 with
            | .error e => .error e
            | .ok s2 =>
              match rest2 with
              | .cons c2 _ => analyzeNodeF f c2 s2
              | .nil => .ok s2
    else if t = "FOR_LOOP" then
      match cs with
      | .nil => .error (.idxErr, s)
      | .cons c0 rest =>
        let s1 := { s with table := add_symbol s.table c0.nval "VARIABLE" }
        match rest with
        | .nil => .error (.idxErr, s1)
        | .cons c1 rest2 =>
          match analyzeNodeF f c1 s1 with
          | .error e => .error e
          | .ok s2 =>
            match rest2 with
            | .nil => .error (.idxErr, s2)
            | .cons c2 _ => analyzeNodeF f c2 s2
    else if t = "WHILE_LOOP" then
      match cs with
      | .nil => .error (.idxErr, s)
      | .cons c0 rest =>
        match analyzeNodeF f c0 s with
        | .error e => .error e
        | .ok s1 =>
          match rest with
          | .nil => .error (.idxErr, s1)
          | .cons c1 _ => analyzeNodeF f c1 s1
    else if t = "ASSIGNMENT" then
      match cs with
      | .nil => .error (.idxErr, s)
      | .cons c0 rest =>
        let s1 := if (lookup s.table c0.nval).isSome then s
          else { s with table := add_symbol s.table c0.nval "VARIABLE" }
        match rest with
        | .nil => .error (.idxErr, s1)
        | .cons c1 _ => analyzeNodeF f c1 s1
    else if t = "FUNCTION_CALL" then
      let s1 := match lookup s.table v with
        | none => { s with errors := s.errors ++ [.funcNotDefined v] }
        | some sym =>
          if sym.stype ≠ "FUNCTION"
          then { s with errors := s.errors ++ [.notAFunction v] } else s
      match cs with
      | .nil => .error (.idxErr, s1)
      | .cons c0 _ => analyzeChildrenF f c0.children s1
    else if t = "VARIABLE" then
      if (lookup s.table v).isSome then .ok s
      else .ok { s with errors := s.errors ++ [.varNotDefined v] }
    else analyzeChildrenF f cs s
termination_by structural f => f

/-- Sequential analysis of a child list (the `for child in node.children`
loops of `_analyze_program` / `_analyze_block` / the default branch / the
argument loop of `_analyze_function_call`). -/
def analyzeChildrenF : Nat → ASTList → AState → Except (AExc × AState) AState
  | 0, _, s => .error (.fuelErr, s)
  | _ + 1, .nil, s => .ok s
  | f + 1, .cons c rest, s =>
    match analyzeNodeF f c s with
    | .error e => .error e
    | .ok s1 => analyzeChildrenF f rest s1
termination_by structural f => f
end

/-- The initial analyzer state (`SemanticAnalyzer.__init__` plus the
`self.errors = []` reset of `analyze`). -/
def initAState : AState := ⟨initTable, []⟩

/-- `SemanticAnalyzer.analyze`: run the traversal, `True` iff it completed
with an empty error list; any exception yields `False`. -/
def analyze (ast : ASTNode) : Bool :=
  match analyzeNodeF (costN ast) ast initAState with
  | .ok s => s.errors.isEmpty
  | .error _ => false

/-- The error list visible through `get_errors` after `analyze` (on an
exception, the errors collected up to the raise). -/
def analyzeErrors (ast : ASTNode) : List SemErr :=
  match analyzeNodeF (costN ast) ast initAState with
  | .ok s => s.errors
  | .error (_, s) => s.errors

/-! ## The code generator (`code_generator.py`) and `utils.format_python_code`

Generator methods return Python `str` or `None` (`_generate_variable` returns
`node.value` unchanged), modelled as `Option String`; the exceptions a
traversal can raise are `IndexError` (missing `children[k]`), `TypeError`
(concatenating or joining `None`) and `AttributeError` (`.strip()`/`.split()`
on `None`). -/

inductive GenErr where
  | idxErr
  | typeErr
  | attrErr
deriving DecidableEq, Repr

/-- Python `str(x)` on an optional string (`str(None) = "None"`), the
behaviour of f-string interpolation. -/
def pyStr : Option String → String
  | none => "None"
  | some s => s

/-- Python `str.strip` (both ends). -/
def pyStrip (s : String) : String := String.mk (stripChars s.data)

/-- Python `str.rstrip`. -/
def pyRstrip (s : String) : String :=
  String.mk (s.data.reverse.dropWhile isSpaceChar).reverse

/-- `CodeGenerator._indent` (`indent_level * indent_size` spaces); the shared
mutable `indent_level` is passed as the `lvl` parameter below, which is
equivalent because every `+= 1` is matched by a `-= 1` around the same
recursive call. -/
def indentOf (lvl : Nat) : String := String.mk (List.replicate (lvl * 4) ' ')

/-- Python truthiness of an optional string (`if child_code:`). -/
def strTruthy : Option String → Bool
  | none => false
  | some s => !s.isEmpty

mutual
/-- `CodeGenerator._generate_node`: dispatch on the node type. -/
def gen_node (lvl : Nat) : ASTNode → Except GenErr (Option String)
  | .mk t v cs =>
    if t = "PROGRAM" then
      match gen_program_children lvl cs ("# Código generado automáticamente\n\n") with
      | .error e => .error e
      | .ok code => .ok (some (pyRstrip code))
    else if t = "FUNCTION_DEF" then
      match cs with
      | .nil => .error .idxErr
      | .cons params rest =>
        match gen_node lvl params with
        | .error e => .error e
        | .ok paramsCode =>
          match rest with
          | .nil => .error .idxErr
          | .cons body _ =>
            match gen_node (lvl + 1) body with
            | .error e => .error e
            | .ok none => .error .attrErr
            | .ok (some bodyCode) =>
              let bodyCode2 := if pyStrip bodyCode = "" then indentOf lvl ++ "pass"
                else bodyCode
              .ok (some ("def " ++ pyStr v ++ "(" ++ pyStr paramsCode ++ "):\n"
                ++ bodyCode2))
    else if t = "BLOCK" then
      match gen_block_children lvl cs "" with
      | .error e => .error e
      | .ok code => .ok (some code)
    else if t = "IF_STATEMENT" then
      match cs with
      | .nil => .error .idxErr
      | .cons c0 rest =>
        match gen_node lvl c0 with
        | .error e => .error e
        | .ok condCode =>
          match rest with
          | .nil => .error .idxErr
          | .cons c1 rest2 =>
            match gen_node (lvl + 1) c1 with
            | .error e => .error e
            | .ok none => .error .attrErr
            | .ok (some thenCode) =>
              let thenCode2 := if pyStrip thenCode = "" then indentOf lvl ++ "pass\n"
                else thenCode
              let base := "if " ++ pyStr condCode ++ ":\n" ++ thenCode2
              match rest2 with
              | .nil => .ok (some base)
              | .cons c2 _ =>
                match gen_node (lvl + 1) c2 with
                | .error e => .error e
                | .ok none => .error .attrErr
                | .ok (some elseCode) =>
                  let elseCode2 := if pyStrip elseCode = ""
                    then indentOf lvl ++ "pass\n" else elseCode
                  .ok (some (base ++ "else:\n" ++ elseCode2))
    else if t = "FOR_LOOP" then
      match cs with
      | .nil => .error .idxErr
      | .cons c0 rest =>
        match gen_node lvl c0 with
        | .error e => .error e
        | .ok varCode =>
          match rest with
          | .nil => .error .idxErr
          | .cons c1 rest2 =>
            match gen_node lvl c1 with
            | .error e => .error e
            | .ok iterCode =>
              match rest2 with
              | .nil => .error .idxErr
              | .cons c2 _ =>
                match gen_node (lvl + 1) c2 with
                | .error e => .error e
                | .ok none => .error .attrErr
                | .ok (some bodyCode) =>
                  let bodyCode2 := if pyStrip bodyCode = ""
                    then indentOf lvl ++ "pass\n" else bodyCode
                  .ok (some ("for " ++ pyStr varCode ++ " in " ++ pyStr iterCode
                    ++ ":\n" ++ bodyCode2))
    else if t = "WHILE_LOOP" then
      match cs with
      | .nil => .error .idxErr
      | .cons c0 rest =>
        match gen_node lvl c0 with
        | .error e => .error e
        | .ok condCode =>
          match rest with
          | .nil => .error .idxErr
          | .cons c1 _ =>
            match gen_node (lvl + 1) c1 with
            | .error e => .error e
            | .ok none => .error .attrErr
            | .ok (some bodyCode) =>
              let bodyCode2 := if pyStrip bodyCode = ""
                then indentOf lvl ++ "pass\n" else bodyCode
              .ok (some ("while " ++ pyStr condCode ++ ":\n" ++ bodyCode2))
    else if t = "ASSIGNMENT" then
      match cs with
      | .nil => .error .idxErr
      | .cons c0 rest =>
        match gen_node lvl c0 with
        | .error e => .error e
        | .ok varCode =>
          match rest with
          | .nil => .error .idxErr
          | .cons c1 _ =>
            match gen_node lvl c1 with
            | .error e => .error e
            | .ok exprCode => .ok (some (pyStr varCode ++ " = " ++ pyStr exprCode))
    else if t = "FUNCTION_CALL" then
      match cs with
      | .nil => .error .idxErr
      | .cons c0 _ =>
        match gen_node lvl c0 with
        | .error e => .error e
        | .ok argsCode => .ok (some (pyStr v ++ "(" ++ pyStr argsCode ++ ")"))
    else if t = "VARIABLE" then .ok v
    else if t = "LITERAL" then .ok (some (pyStr v))
    else if t = "EXPRESSION" then .ok (some (pyStr v))
    else if t = "CONDITION" ∨ t = "THEN" ∨ t = "ELSE" ∨ t = "ITERABLE" ∨ t = "BODY" then
      match cs with
      | .cons c0 _ => gen_node lvl c0
      | .nil => .ok (some "")
    else if t = "PARAMETERS" then
      match gen_params_values cs [] with
      | .error e => .error e
      | .ok vals => .ok (some (String.intercalate ", " vals))
    else if t = "ARGUMENTS" then
      match gen_args_values lvl cs [] with
      | .error e => .error e
      | .ok vals => .ok (some (String.intercalate ", " vals))
    else .ok (some "")

/-- The `for child in node.children` loop of `_generate_program`
(`code += self._generate_node(child) + "\n\n"`; a `None` child result raises
`TypeError`). -/
def gen_program_children (lvl : Nat) : ASTList → String → Except GenErr String
  | .nil, acc => .ok acc
  | .cons c rest, acc =>
    match gen_node lvl c with
    | .error e => .error e
    | .ok none => .error .typeErr
    | .ok (some code) => gen_program_children lvl rest (acc ++ code ++ "\n\n")

/-- The loop of `_generate_block` (`if child_code:` skips falsy results,
including `None`, so this loop never raises on its own). -/
def gen_block_children (lvl : Nat) : ASTList → String → Except GenErr String
  | .nil, acc => .ok acc
  | .cons c rest, acc =>
    match gen_node lvl c with
    | .error e => .error e
    | .ok code =>
      if strTruthy code
      then gen_block_children lvl rest (acc ++ indentOf lvl ++ pyStr code ++ "\n")
      else gen_block_children lvl rest acc

/-- The loop of `_generate_parameters` (collects `param.value`; a `None`
value makes the final `", ".join` raise `TypeError`). -/
def gen_params_values : ASTList → List String → Except GenErr (List String)
  | .nil, acc => .ok acc
  | .cons p rest, acc =>
    match p.nval with
    | none => .error .typeErr
    | some pv => gen_params_values rest (acc ++ [pv])

/-- The loop of `_generate_arguments` (generates each argument; a `None`
result makes the final `", ".join` raise `TypeError`). -/
def gen_args_values (lvl : Nat) : ASTList → List String →
    Except GenErr (List String)
  | .nil, acc => .ok acc
  | .cons c rest, acc =>
    match gen_node lvl c with
    | .error e => .error e
    | .ok none => .error .typeErr
    | .ok (some code) => gen_args_values lvl rest (acc ++ [code])
end

/-- One line step of `utils.format_python_code` (the dead
`elif stripped in ['else:', ...]` branch is kept in source order: it is
unreachable because those strings end with `':'`). -/
def fmtLines : List String → Nat → List String → List String
  | [], _, acc => acc
  | line :: rest, lvl, acc =>
    let stripped := pyStrip line
    if stripped.endsWith ":" then
      fmtLines rest (lvl + 1) (acc ++ [indentOf lvl ++ stripped])
    else if stripped = "else:" ∨ stripped = "elif:" ∨ stripped = "except:"
        ∨ stripped = "finally:" then
      fmtLines rest ((lvl - 1) + 1) (acc ++ [indentOf (lvl - 1) ++ stripped])
    else if stripped = "break" ∨ stripped = "continue" ∨ stripped = "pass"
        ∨ stripped = "return" then
      fmtLines rest lvl (acc ++ [indentOf lvl ++ stripped])
    else if stripped ≠ "" then
      fmtLines rest lvl (acc ++ [indentOf lvl ++ stripped])
    else fmtLines rest lvl acc

/-- `utils.format_python_code`. -/
def format_python_code (code : String) : String :=
  String.intercalate "\n" (fmtLines (code.splitOn "\n") 0 [])

/-- The comment string `generate` returns when the traversal (or the
formatting step) raises. -/
def errComment (e : GenErr) : String :=
  "# Error en la generación de código: " ++
    (match e with
     | .idxErr => "list index out of range"
     | .typeErr => "unsupported operand type"
     | .attrErr => "NoneType attribute")

/-- `CodeGenerator.generate`: run the traversal and the formatting step
inside the failure guard; any exception becomes a one-line comment.  A `None`
traversal result makes `format_python_code(None)` raise `AttributeError`
inside the guard. -/
def generate (ast : ASTNode) : String :=
  match gen_node 0 ast with
  | .error e => errComment e
  | .ok none => errComment .attrErr
  | .ok (some code) => format_python_code code

/-- The scope-map invariant of C10: the scope map contains the key
`"global"` and the current scope is always a key of the map. -/
def STInv (st : SymbolTable) : Prop :=
  (assocGet st.symbols (some "global")).isSome = true
  ∧ (assocGet st.symbols st.currentScope).isSome = true

/-! ## Theorems -/

theorem charOfNat_toNat (n : Nat) (h : n < 55296) : (Char.ofNat n).toNat = n := by
  unfold Char.ofNat
  split
  · rfl
  · next hv => exact absurd (Or.inl h) hv

theorem patMatch_eq_append {p : LexPat} {cs m r : List Char}
    (h : patMatch p cs = some (m, r)) : m ≠ [] ∧ m ++ r = cs := by
  cases p <;> simp only [patMatch, List.span_eq_take_drop] at h
  case wordPat =>
    cases cs with
    | nil => exact absurd h (by simp)
    | cons c cs' =>
      simp only [List.span_eq_take_drop] at h
      split at h
      · rw [Option.some.injEq, Prod.mk.injEq] at h
        obtain ⟨h1, h2⟩ := h
        subst h1; subst h2
        exact ⟨by simp, by simp [List.takeWhile_append_dropWhile]⟩
      · exact absurd h (by simp)
  case floatPat =>
    split at h
    · exact absurd h (by simp)
    · split at h
      · next r2 heq =>
        split at h
        · exact absurd h (by simp)
        · rw [Option.some.injEq, Prod.mk.injEq] at h
          obtain ⟨h1, h2⟩ := h
          subst h1; subst h2
          constructor
          · simp
          · rw [List.append_assoc]
            rw [show ('.' :: List.takeWhile isDigitChar r2) ++ List.dropWhile isDigitChar r2
                  = '.' :: r2 by simp [List.takeWhile_append_dropWhile]]
            rw [← heq, List.takeWhile_append_dropWhile]
      · exact absurd h (by simp)
  case intPat =>
    split at h
    · exact absurd h (by simp)
    · next hne =>
      rw [Option.some.injEq, Prod.mk.injEq] at h
      obtain ⟨h1, h2⟩ := h
      subst h1; subst h2
      exact ⟨by simpa using hne, List.takeWhile_append_dropWhile _ _⟩
  case opPat =>
    cases cs with
    | nil => exact absurd h (by simp)
    | cons c cs' =>
      simp only at h
      split at h
      · split at h
        · rw [Option.some.injEq, Prod.mk.injEq] at h
          obtain ⟨h1, h2⟩ := h
          subst h1; subst h2
          exact ⟨by simp, by simp⟩
        · rw [Option.some.injEq, Prod.mk.injEq] at h
          obtain ⟨h1, h2⟩ := h
          subst h1; subst h2
          exact ⟨by simp, by simp⟩
      · exact absurd h (by simp)
  case delimPat =>
    cases cs with
    | nil => exact absurd h (by simp)
    | cons c cs' =>
      simp only at h
      split at h
      · rw [Option.some.injEq, Prod.mk.injEq] at h
        obtain ⟨h1, h2⟩ := h
        subst h1; subst h2
        exact ⟨by simp, by simp⟩
      · exact absurd h (by simp)
  case strDPat =>
    cases cs with
    | nil => exact absurd h (by simp)
    | cons c cs' =>
      simp only [List.span_eq_take_drop] at h
      split at h
      · next hc =>
        split at h
        · next d r0 heq =>
          rw [Option.some.injEq, Prod.mk.injEq] at h
          obtain ⟨h1, h2⟩ := h
          subst h1; subst h2
          subst hc
          refine ⟨by simp, ?_⟩
          simp only [List.cons_append, List.append_assoc, List.singleton_append,
            List.nil_append]
          rw [← heq, List.takeWhile_append_dropWhile]
        · exact absurd h (by simp)
      · exact absurd h (by simp)
  case strSPat =>
    cases cs with
    | nil => exact absurd h (by simp)
    | cons c cs' =>
      simp only [List.span_eq_take_drop] at h
      split at h
      · next hc =>
        split at h
        · next d r0 heq =>
          rw [Option.some.injEq, Prod.mk.injEq] at h
          obtain ⟨h1, h2⟩ := h
          subst h1; subst h2
          subst hc
          refine ⟨by simp, ?_⟩
          simp only [List.cons_append, List.append_assoc, List.singleton_append,
            List.nil_append]
          rw [← heq, List.takeWhile_append_dropWhile]
        · exact absurd h (by simp)
      · exact absurd h (by simp)
  case wsPat =>
    split at h
    · exact absurd h (by simp)
    · next hne =>
      rw [Option.some.injEq, Prod.mk.injEq] at h
      obtain ⟨h1, h2⟩ := h
      subst h1; subst h2
      exact ⟨by simpa using hne, List.takeWhile_append_dropWhile _ _⟩

theorem firstMatchAux_eq_append {ps : List LexPat} {cs : List Char} {p : LexPat}
    {m r : List Char} (h : firstMatchAux ps cs = some (p, m, r)) :
    m ≠ [] ∧ m ++ r = cs := by
  induction ps with
  | nil => exact absurd h (by simp [firstMatchAux])
  | cons q ps ih =>
    rw [firstMatchAux] at h
    split at h
    · next val heq =>
      rw [Option.some.injEq] at h
      obtain ⟨h1, h2⟩ := Prod.mk.injEq .. ▸ h
      subst h1
      obtain ⟨h2, h3⟩ := Prod.mk.injEq .. ▸ h2
      subst h2; subst h3
      exact patMatch_eq_append heq
    · exact ih h

theorem scanAux_nil (f : Nat) (pos : Nat) : scanAux f [] pos = [] := by
  cases f <;> rfl

theorem scanAux_fuel_sufficient :
    ∀ (f f' : Nat) (cs : List Char) (pos : Nat), cs.length ≤ f → cs.length ≤ f' →
    scanAux f cs pos = scanAux f' cs pos := by
  intro f
  induction f with
  | zero =>
    intro f' cs pos h _
    have : cs = [] := List.length_eq_zero.mp (Nat.le_zero.mp h)
    subst this
    rw [scanAux_nil, scanAux_nil]
  | succ f ih =>
    intro f' cs pos h h'
    cases cs with
    | nil => rw [scanAux_nil, scanAux_nil]
    | cons c cs' =>
      cases f' with
      | zero => simp at h'
      | succ f'' =>
        rw [scanAux, scanAux]
        cases hm : firstMatchAux lexPatterns (c :: cs') with
        | none =>
          simp only
          exact ih f'' cs' (pos + 1) (by simpa using h) (by simpa using h')
        | some v =>
          obtain ⟨p, m, r⟩ := v
          simp only
          obtain ⟨hne, happ⟩ := firstMatchAux_eq_append hm
          have hlen : r.length + 1 ≤ cs'.length + 1 := by
            have := congrArg List.length happ
            simp at this
            cases m with
            | nil => exact absurd rfl hne
            | cons a as => simp at this; omega
          congr 1
          exact ih f'' r (pos + m.length) (by simp at h ⊢; omega) (by simp at h' ⊢; omega)

theorem firstMatchAux_first {ps : List LexPat} {cs : List Char} {n : Nat} {p : LexPat}
    {m r : List Char}
    (hp : ps[n]? = some p)
    (hprev : ∀ (k : Nat) (q : LexPat), k < n → ps[k]? = some q → patMatch q cs = none)
    (hm : patMatch p cs = some (m, r)) :
    firstMatchAux ps cs = some (p, m, r) := by
  induction ps generalizing n with
  | nil => simp at hp
  | cons q ps ih =>
    cases n with
    | zero =>
      simp only [List.getElem?_cons_zero, Option.some.injEq] at hp
      subst hp
      rw [firstMatchAux, hm]
    | succ n' =>
      simp only [List.getElem?_cons_succ] at hp
      have hq : patMatch q cs = none := hprev 0 q (Nat.succ_pos n') (by simp)
      rw [firstMatchAux, hq]
      exact ih hp (fun k qq hk hkq => hprev (k + 1) qq (by omega) (by simpa using hkq))

theorem firstMatchAux_eq_none {ps : List LexPat} {cs : List Char}
    (h : ∀ q ∈ ps, patMatch q cs = none) : firstMatchAux ps cs = none := by
  induction ps with
  | nil => rfl
  | cons q ps ih =>
    rw [firstMatchAux, h q (by simp)]
    exact ih (fun qq hq => h qq (by simp [hq]))

/-- C1: at every scan position the lexer's `tokenize` loop applies the first
pattern, in the fixed declared order (identifier/keyword, FLOAT, INTEGER,
OPERATOR, DELIMITER, double-quoted STRING, single-quoted STRING, whitespace),
that matches at that position and advances to the match end, whitespace
producing no token (`patToken .wsPat` is `none`); and when no pattern matches
the position advances by exactly one character with no token emitted.  `scan`
is a total function, so tokenization never fails.  (This ordered-priority
behaviour also settles the overview's looser description of the same scan as
longest-match-first.) -/
theorem C1_scan_ordered_first_match :
    ∀ (c : Char) (cs : List Char) (pos n : Nat) (p : LexPat) (m r : List Char),
    (lexPatterns[n]? = some p →
      (∀ (k : Nat) (q : LexPat), k < n → lexPatterns[k]? = some q →
        patMatch q (c :: cs) = none) →
      patMatch p (c :: cs) = some (m, r) →
      scan (c :: cs) pos = (patToken p m pos).toList ++ scan r (pos + m.length))
    ∧ ((∀ q ∈ lexPatterns, patMatch q (c :: cs) = none) →
      scan (c :: cs) pos = scan cs (pos + 1)) := by
  intro c cs pos n p m r
  constructor
  · intro hp hprev hm
    have hfa := firstMatchAux_first hp hprev hm
    show scanAux (c :: cs).length (c :: cs) pos = _
    rw [List.length_cons, scanAux, hfa]
    obtain ⟨hne, happ⟩ := patMatch_eq_append hm
    have hr : r.length ≤ cs.length := by
      have := congrArg List.length happ
      cases m with
      | nil => exact absurd rfl hne
      | cons a as => simp at this; omega
    show (patToken p m pos).toList ++ scanAux cs.length r (pos + m.length) = _
    congr 1
    exact scanAux_fuel_sufficient cs.length r.length r (pos + m.length) hr le_rfl
  · intro hnone
    have hfa := firstMatchAux_eq_none hnone
    show scanAux (c :: cs).length (c :: cs) pos = _
    rw [List.length_cons, scanAux, hfa]
    rfl

theorem identify_word_type_cases (w : String) (pos : Nat) :
    (identify_word w pos).type = "KEYWORD"
    ∨ ((identify_word w pos).type ∈ SPECIAL_TOKENS.map Prod.fst
        ∧ (identify_word w pos).value = w)
    ∨ ((identify_word w pos).type = "IDENTIFIER" ∧ (identify_word w pos).value = w) := by
  unfold identify_word
  split
  · left; rfl
  · split
    · left; rfl
    · split
      · next p hp =>
        right; left
        exact ⟨List.mem_map_of_mem Prod.fst (List.mem_of_find?_eq_some hp), rfl⟩
      · right; right; exact ⟨rfl, rfl⟩

theorem identify_word_type_ne_eof (w : String) (pos : Nat) :
    (identify_word w pos).type ≠ "EOF" := by
  rcases identify_word_type_cases w pos with h | ⟨h, _⟩ | ⟨h, _⟩
  · rw [h]; decide
  · have hall : ∀ x ∈ SPECIAL_TOKENS.map Prod.fst, x ≠ "EOF" := by decide
    exact hall _ h
  · rw [h]; decide

theorem patToken_type_ne_eof {p : LexPat} {m : List Char} {pos : Nat} {t : Token}
    (h : patToken p m pos = some t) : t.type ≠ "EOF" := by
  cases p <;> simp only [patToken, Option.some.injEq] at h
  case wordPat => exact h ▸ identify_word_type_ne_eof _ _
  case wsPat => exact absurd h (by simp)
  all_goals (rw [← h]; simp)

theorem scanAux_type_ne_eof (f : Nat) :
    ∀ (cs : List Char) (pos : Nat) (t : Token), t ∈ scanAux f cs pos →
    t.type ≠ "EOF" := by
  induction f with
  | zero => intro cs pos t ht; simp [scanAux] at ht
  | succ f ih =>
    intro cs pos t ht
    cases cs with
    | nil => simp [scanAux] at ht
    | cons c cs' =>
      rw [scanAux] at ht
      cases hm : firstMatchAux lexPatterns (c :: cs') with
      | none =>
        rw [hm] at ht
        exact ih cs' (pos + 1) t ht
      | some v =>
        obtain ⟨p, m, r⟩ := v
        rw [hm] at ht
        rcases List.mem_append.mp ht with hl | hr
        · cases hpt : patToken p m pos with
          | none => rw [hpt] at hl; simp at hl
          | some tok =>
            rw [hpt] at hl
            simp at hl
            exact hl ▸ patToken_type_ne_eof hpt
        · exact ih r (pos + m.length) t hr

/-- C7: for every input string the token list returned by `tokenize` ends
with exactly one token of type EOF (with the empty string as value), it is
the last element, and no earlier token has type EOF. -/
theorem C7_tokenize_single_trailing_eof (s : String) :
    ∃ pre, tokenize s =
        pre ++ [⟨"EOF", "", ((normalize_text s).data.length : Int)⟩]
      ∧ ∀ t ∈ pre, t.type ≠ "EOF" := by
  exact ⟨scan (normalize_text s).data 0, rfl,
    fun t ht => scanAux_type_ne_eof _ _ _ t ht⟩

/-- Witness for `C7_tokenize_single_trailing_eof` on the concrete input
"x 5". -/
theorem C7_tokenize_single_trailing_eof_witness :
    (∃ pre, tokenize "x 5" =
        pre ++ [⟨"EOF", "", ((normalize_text "x 5").data.length : Int)⟩]
      ∧ ∀ t ∈ pre, t.type ≠ "EOF")
    ∧ tokenize "x 5" =
        [⟨"IDENTIFIER", "x", 0⟩, ⟨"INTEGER", "5", 2⟩, ⟨"EOF", "", 3⟩] :=
  ⟨C7_tokenize_single_trailing_eof "x 5", by decide⟩

theorem mapping_values_not_keys :
    KEYWORD_MAPPING.all (fun p => (lookupMap KEYWORD_MAPPING p.2).isNone) = true := by
  decide

theorem lookupMap_val_not_key {k v : String}
    (h : lookupMap KEYWORD_MAPPING k = some v) :
    lookupMap KEYWORD_MAPPING v = none := by
  unfold lookupMap at h
  cases hf : KEYWORD_MAPPING.find? (fun p => p.1 == k) with
  | none => rw [hf] at h; simp at h
  | some q =>
    rw [hf] at h
    simp only [Option.map_some', Option.some.injEq] at h
    have hq := List.mem_of_find?_eq_some hf
    have hall := mapping_values_not_keys
    rw [List.all_eq_true] at hall
    have h2 := hall q hq
    rw [← h]
    simpa using h2

/-- C8: re-mapping the lexer's keyword-mapped output is idempotent:
`map_to_python_tokens (map_to_python_tokens T) = map_to_python_tokens T`
for every token list `T` under the default keyword mapping (no value of
`KEYWORD_MAPPING` is itself a key of the mapping). -/
theorem C8_map_to_python_tokens_idempotent (ts : List Token) :
    map_to_python_tokens (map_to_python_tokens ts) = map_to_python_tokens ts := by
  unfold map_to_python_tokens
  rw [List.map_map]
  apply List.map_congr_left
  intro t _
  simp only [Function.comp_apply]
  by_cases ht : t.type = "KEYWORD"
  · rw [if_pos ht]
    cases hl : lookupMap KEYWORD_MAPPING t.value with
    | none => rw [if_pos ht, hl]
    | some v =>
      simp only [if_pos ht, lookupMap_val_not_key hl]
  · rw [if_neg ht, if_neg ht]

/-- Witness for `C1_scan_ordered_first_match`: on input "7!" at position 0,
patterns 0 (word) and 1 (FLOAT) fail, pattern 2 (INTEGER) matches "7", and
the scan emits exactly that token and continues after the match. -/
theorem C1_scan_ordered_first_match_witness :
    lexPatterns[2]? = some .intPat
    ∧ patMatch .intPat ['7', '!'] = some (['7'], ['!'])
    ∧ scan ['7', '!'] 0 = (patToken .intPat ['7'] 0).toList ++ scan ['!'] (0 + 1) := by
  refine ⟨by decide, by decide, ?_⟩
  have h := (C1_scan_ordered_first_match '7' ['!'] 0 2 .intPat ['7'] ['!']).1
  have hprev : ∀ (k : Nat) (q : LexPat), k < 2 → lexPatterns[k]? = some q →
      patMatch q ['7', '!'] = none := by
    intro k q hk hq
    interval_cases k
    · rw [show q = LexPat.wordPat from ((by simpa [lexPatterns] using hq) : LexPat.wordPat = q).symm]
      decide
    · rw [show q = LexPat.floatPat from ((by simpa [lexPatterns] using hq) : LexPat.floatPat = q).symm]
      decide
  have := h (by decide) hprev (by decide)
  simpa using this

theorem isKeptChar_space : isKeptChar ' ' = true := by decide

theorem mem_collapseWs {l : List Char} {c : Char} (h : c ∈ collapseWs l) :
    c = ' ' ∨ c ∈ l := by
  induction l with
  | nil => simp [collapseWs] at h
  | cons a tl ih =>
    cases tl with
    | nil =>
      rw [collapseWs] at h
      split at h
      · simp at h; left; exact h
      · simp at h; right; simp [h]
    | cons d cs =>
      rw [collapseWs] at h
      split at h
      · split at h
        · rcases ih h with h1 | h1
          · left; exact h1
          · right; simp [h1]
        · rcases List.mem_cons.mp h with h1 | h1
          · left; exact h1
          · rcases ih h1 with h2 | h2
            · left; exact h2
            · right; simp [h2]
      · rcases List.mem_cons.mp h with h1 | h1
        · right; simp [h1]
        · rcases ih h1 with h2 | h2
          · left; exact h2
          · right; simp [h2]

theorem mem_stripChars {l : List Char} {c : Char} (h : c ∈ stripChars l) :
    c ∈ l := by
  unfold stripChars at h
  rw [List.mem_reverse] at h
  have h1 := (List.dropWhile_sublist _).subset h
  rw [List.mem_reverse] at h1
  exact (List.dropWhile_sublist _).subset h1

theorem normalize_text_kept (s : String) :
    ∀ c ∈ (normalize_text s).data, isKeptChar c = true := by
  intro c hc
  have h1 : c ∈ collapseWs ((s.data.map lowerChar).filter isKeptChar) :=
    mem_stripChars hc
  rcases mem_collapseWs h1 with h2 | h2
  · rw [h2]; exact isKeptChar_space
  · exact List.of_mem_filter h2

theorem kept_not_forbidden {c : Char} (h : isKeptChar c = true) :
    c ∉ (['=', '+', '-', '*', '/', '<', '>'] : List Char) := by
  intro hmem
  simp only [List.mem_cons, List.not_mem_nil, or_false] at hmem
  rcases hmem with rfl | rfl | rfl | rfl | rfl | rfl | rfl <;>
    exact absurd h (by decide)

theorem lowerChar_kept_not_forbidden {c : Char} (h : isKeptChar c = true) :
    lowerChar c ∉ (['=', '+', '-', '*', '/', '<', '>'] : List Char) := by
  by_cases hu : (65 ≤ c.toNat && c.toNat ≤ 90) = true
  · have hu' : 65 ≤ c.toNat ∧ c.toNat ≤ 90 := by simpa using hu
    have ht : (lowerChar c).toNat = c.toNat + 32 := by
      unfold lowerChar
      rw [if_pos hu]
      exact charOfNat_toNat _ (by omega)
    intro hmem
    simp only [List.mem_cons, List.not_mem_nil, or_false] at hmem
    rcases hmem with he | he | he | he | he | he | he <;>
      (have h2 := congrArg Char.toNat he; rw [ht] at h2; simp at h2; omega)
  · have : lowerChar c = c := by unfold lowerChar; rw [if_neg hu]
    rw [this]
    exact kept_not_forbidden h

theorem identStart_identCont {c : Char} (h : isIdentStart c = true) :
    isIdentCont c = true := by
  simp [isIdentCont, h]

theorem identCont_kept {c : Char} (h : isIdentCont c = true) :
    isKeptChar c = true := by
  simp [isKeptChar, isWordChar, h]

theorem wordPat_match_chars {cs m r : List Char}
    (h : patMatch .wordPat cs = some (m, r)) : ∀ c ∈ m, isIdentCont c = true := by
  cases cs with
  | nil => exact absurd h (by simp [patMatch])
  | cons a cs' =>
    simp only [patMatch, List.span_eq_take_drop] at h
    split at h
    · next hs =>
      rw [Option.some.injEq, Prod.mk.injEq] at h
      obtain ⟨h1, _⟩ := h
      subst h1
      intro c hc
      rcases List.mem_cons.mp hc with rfl | hc'
      · exact identStart_identCont hs
      · exact List.mem_takeWhile_imp hc'
    · exact absurd h (by simp)

theorem patToken_kept {p : LexPat} {cs m r : List Char} {pos : Nat} {t : Token}
    (hall : ∀ c ∈ cs, isKeptChar c = true)
    (hm : patMatch p cs = some (m, r))
    (ht : patToken p m pos = some t) :
    t.type ≠ "STRING"
    ∧ (t.type = "OPERATOR" →
        ∀ c ∈ t.value.data, c ∉ (['=', '+', '-', '*', '/', '<', '>'] : List Char))
    ∧ (t.type = "DELIMITER" → t.value = "," ∨ t.value = ";" ∨ t.value = ":") := by
  have hmm : ∀ c ∈ m, c ∈ cs := by
    intro c hc
    rw [← (patMatch_eq_append hm).2]
    exact List.mem_append_left _ hc
  cases p
  case wordPat =>
    simp only [patToken, Option.some.injEq] at ht
    subst ht
    have hwc := wordPat_match_chars hm
    rcases identify_word_type_cases (String.mk (m.map lowerChar)) pos
      with hk | ⟨hsp, hv⟩ | ⟨hid, hv⟩
    · refine ⟨by rw [hk]; decide, fun hop => ?_, fun hd => ?_⟩
      · rw [hk] at hop; exact absurd hop (by decide)
      · rw [hk] at hd; exact absurd hd (by decide)
    · refine ⟨?_, fun hop c hc => ?_, fun hd => ?_⟩
      · have : ∀ x ∈ SPECIAL_TOKENS.map Prod.fst, x ≠ "STRING" := by decide
        exact this _ hsp
      · rw [hv] at hc
        simp only [String.mk] at hc
        rcases List.mem_map.mp hc with ⟨c0, hc0, rfl⟩
        exact lowerChar_kept_not_forbidden (identCont_kept (hwc c0 hc0))
      · have : ∀ x ∈ SPECIAL_TOKENS.map Prod.fst, x ≠ "DELIMITER" := by decide
        exact absurd hd (this _ hsp)
    · refine ⟨by rw [hid]; decide, fun hop => ?_, fun hd => ?_⟩
      · rw [hid] at hop; exact absurd hop (by decide)
      · rw [hid] at hd; exact absurd hd (by decide)
  case floatPat =>
    simp only [patToken, Option.some.injEq] at ht
    subst ht
    exact ⟨by simp, fun hop => absurd hop (by simp),
      fun hd => absurd hd (by simp)⟩
  case intPat =>
    simp only [patToken, Option.some.injEq] at ht
    subst ht
    exact ⟨by simp, fun hop => absurd hop (by simp),
      fun hd => absurd hd (by simp)⟩
  case opPat =>
    simp only [patToken, Option.some.injEq] at ht
    subst ht
    cases cs with
    | nil => exact absurd hm (by simp [patMatch])
    | cons a cs' =>
      simp only [patMatch] at hm
      split at hm
      · split at hm
        · rw [Option.some.injEq, Prod.mk.injEq] at hm
          obtain ⟨h1, _⟩ := hm
          subst h1
          exact absurd (hall '=' (hmm '=' (by simp))) (by decide)
        · rw [Option.some.injEq, Prod.mk.injEq] at hm
          obtain ⟨h1, _⟩ := hm
          subst h1
          refine ⟨by simp, fun _ c hc => ?_, fun hd => absurd hd (by simp)⟩
          have hc' : c = a := by simpa using hc
          subst hc'
          exact kept_not_forbidden (hall c (by simp))
      · exact absurd hm (by simp)
  case delimPat =>
    simp only [patToken, Option.some.injEq] at ht
    subst ht
    cases cs with
    | nil => exact absurd hm (by simp [patMatch])
    | cons a cs' =>
      simp only [patMatch] at hm
      split at hm
      · next hdl =>
        rw [Option.some.injEq, Prod.mk.injEq] at hm
        obtain ⟨h1, _⟩ := hm
        subst h1
        refine ⟨by simp, fun hop => absurd hop (by simp), fun _ => ?_⟩
        have ha := hall a (by simp)
        have hdl' : a ∈ delimChars := by simpa [delimChars] using hdl
        simp only [delimChars, List.mem_cons, List.not_mem_nil, or_false] at hdl'
        rcases hdl' with rfl | rfl | rfl | rfl | rfl | rfl | rfl | rfl | rfl <;>
          first
            | exact absurd ha (by decide)
            | (left; rfl)
            | (right; left; rfl)
            | (right; right; rfl)
      · exact absurd hm (by simp)
  case strDPat =>
    cases cs with
    | nil => exact absurd hm (by simp [patMatch])
    | cons a cs' =>
      simp only [patMatch] at hm
      split at hm
      · next hq =>
        subst hq
        exact absurd (hall '"' (by simp)) (by decide)
      · exact absurd hm (by simp)
  case strSPat =>
    cases cs with
    | nil => exact absurd hm (by simp [patMatch])
    | cons a cs' =>
      simp only [patMatch] at hm
      split at hm
      · next hq =>
        subst hq
        exact absurd (hall squote (by simp)) (by decide)
      · exact absurd hm (by simp)
  case wsPat => exact absurd ht (by simp [patToken])

theorem firstMatchAux_patMatch {ps : List LexPat} {cs : List Char} {p : LexPat}
    {m r : List Char} (h : firstMatchAux ps cs = some (p, m, r)) :
    patMatch p cs = some (m, r) := by
  induction ps with
  | nil => exact absurd h (by simp [firstMatchAux])
  | cons q ps ih =>
    rw [firstMatchAux] at h
    split at h
    · next heq =>
      rw [Option.some.injEq] at h
      obtain ⟨h1, h2⟩ := Prod.mk.injEq .. ▸ h
      obtain ⟨h2, h3⟩ := Prod.mk.injEq .. ▸ h2
      subst h1; subst h2; subst h3
      exact heq
    · exact ih h

theorem scanAux_kept (f : Nat) :
    ∀ (cs : List Char) (pos : Nat), (∀ c ∈ cs, isKeptChar c = true) →
    ∀ t ∈ scanAux f cs pos,
      t.type ≠ "STRING"
      ∧ (t.type = "OPERATOR" →
          ∀ c ∈ t.value.data, c ∉ (['=', '+', '-', '*', '/', '<', '>'] : List Char))
      ∧ (t.type = "DELIMITER" → t.value = "," ∨ t.value = ";" ∨ t.value = ":") := by
  induction f with
  | zero => intro cs pos _ t ht; simp [scanAux] at ht
  | succ f ih =>
    intro cs pos hall t ht
    cases cs with
    | nil => simp [scanAux] at ht
    | cons c cs' =>
      rw [scanAux] at ht
      cases hfm : firstMatchAux lexPatterns (c :: cs') with
      | none =>
        rw [hfm] at ht
        exact ih cs' (pos + 1) (fun x hx => hall x (by simp [hx])) t ht
      | some v =>
        obtain ⟨p, m, r⟩ := v
        rw [hfm] at ht
        have hrsub : ∀ x ∈ r, x ∈ c :: cs' := by
          intro x hx
          rw [← (firstMatchAux_eq_append hfm).2]
          exact List.mem_append_right _ hx
        rcases List.mem_append.mp ht with hl | hr
        · cases hpt : patToken p m pos with
          | none => rw [hpt] at hl; simp at hl
          | some tok =>
            rw [hpt] at hl
            simp at hl
            subst hl
            exact patToken_kept hall (firstMatchAux_patMatch hfm) hpt
        · exact ih r (pos + m.length) (fun x hx => hall x (hrsub x hx)) t hr

theorem tokenize_token_facts (s : String) :
    ∀ t ∈ tokenize s,
      t.type ≠ "STRING"
      ∧ (t.type = "OPERATOR" →
          ∀ c ∈ t.value.data, c ∉ (['=', '+', '-', '*', '/', '<', '>'] : List Char))
      ∧ (t.type = "DELIMITER" → t.value = "," ∨ t.value = ";" ∨ t.value = ":") := by
  intro t ht
  unfold tokenize at ht
  rcases List.mem_append.mp ht with hl | hr
  · exact scanAux_kept _ _ 0 (fun c hc => normalize_text_kept s c hc) t hl
  · have : t = ⟨"EOF", "", ((normalize_text s).data.length : Int)⟩ := by simpa using hr
    subst this
    exact ⟨by simp, fun hop => absurd hop (by simp), fun hd => absurd hd (by simp)⟩

/-- C9: `tokenize` first normalizes its input, deleting every character
outside word characters, whitespace and the punctuation set `.,;:?!¿¡`;
consequently it never emits a STRING token, never emits an OPERATOR token
whose value contains `=`, `+`, `-`, `*`, `/`, `<` or `>` (only `!` survives
as an operator character), and never emits a DELIMITER token with value `(`,
`)`, `[`, `]`, `{` or `}` (the only delimiter values are `,`, `;`, `:`); so
the parser's assignment lookahead (IDENTIFIER then OPERATOR `=`) and
function-call recognition (DELIMITER `(`) can never trigger on tokens coming
directly from `tokenize`. -/
theorem C9_tokenize_restricted_alphabet (s : String) :
    (∀ t ∈ tokenize s,
      t.type ≠ "STRING"
      ∧ (t.type = "OPERATOR" →
          ∀ c ∈ t.value.data, c ∉ (['=', '+', '-', '*', '/', '<', '>'] : List Char))
      ∧ (t.type = "DELIMITER" → t.value = "," ∨ t.value = ";" ∨ t.value = ":"))
    ∧ (∀ i : Nat, assignLookahead (tokenize s) i = false
        ∧ callLookahead (tokenize s) i = false) := by
  refine ⟨tokenize_token_facts s, fun i => ⟨?_, ?_⟩⟩
  · unfold assignLookahead peekTok
    rw [List.getD_eq_getElem?_getD]
    cases hpk : (tokenize s)[i + 1]? with
    | none => simp
    | some pt =>
      obtain ⟨_, hop, _⟩ := tokenize_token_facts s pt (List.getElem?_mem hpk)
      simp only [Option.getD_some]
      by_cases hty : pt.type = "OPERATOR"
      · have hval : pt.value ≠ "=" := by
          intro he
          have h1 : '=' ∈ pt.value.data := by rw [he]; simp [String.data]
          exact (hop hty '=' h1) (by simp)
        simp [hval]
      · simp [hty]
  · unfold callLookahead currentTok
    rw [List.getD_eq_getElem?_getD]
    cases hpk : (tokenize s)[i]? with
    | none => simp
    | some ct =>
      obtain ⟨_, _, hdl⟩ := tokenize_token_facts s ct (List.getElem?_mem hpk)
      simp only [Option.getD_some]
      by_cases hty : ct.type = "DELIMITER"
      · have hval : ct.value ≠ "(" := by
          rcases hdl hty with hv | hv | hv <;> (rw [hv]; simp)
        simp [hval]
      · simp [hty]

/-- Witness for `C9_tokenize_restricted_alphabet` on "x = f(y)": the `=` and
the parentheses are deleted by normalization, and neither parser lookahead
fires anywhere on the token stream. -/
theorem C9_tokenize_restricted_alphabet_witness :
    tokenize "x = f(y)" =
      [⟨"IDENTIFIER", "x", 0⟩, ⟨"IDENTIFIER", "fy", 2⟩, ⟨"EOF", "", 4⟩]
    ∧ (∀ t ∈ tokenize "x = f(y)", t.type ≠ "STRING")
    ∧ assignLookahead (tokenize "x = f(y)") 0 = false
    ∧ callLookahead (tokenize "x = f(y)") 1 = false :=
  ⟨by decide,
   fun t ht => ((C9_tokenize_restricted_alphabet "x = f(y)").1 t ht).1,
   ((C9_tokenize_restricted_alphabet "x = f(y)").2 0).1,
   ((C9_tokenize_restricted_alphabet "x = f(y)").2 1).2⟩

theorem assocGet_append {α : Type} (l1 l2 : List (Option String × α))
    (k : Option String) :
    assocGet (l1 ++ l2) k =
      match assocGet l1 k with
      | some v => some v
      | none => assocGet l2 k := by
  induction l1 with
  | nil => simp [assocGet]
  | cons p l1 ih =>
    obtain ⟨pk, pv⟩ := p
    by_cases h : pk = k
    · simp [assocGet, h]
    · simp [assocGet, h, ih]

theorem assocGet_set_self {α : Type} (l : List (Option String × α))
    (k : Option String) (v : α) : assocGet (assocSet l k v) k = some v := by
  induction l with
  | nil => simp [assocSet, assocGet]
  | cons p l ih =>
    obtain ⟨pk, pv⟩ := p
    by_cases h : pk = k
    · simp [assocSet, assocGet, h]
    · simp [assocSet, assocGet, h, ih]

theorem assocGet_set_other {α : Type} (l : List (Option String × α))
    (k k' : Option String) (v : α) (h : k' ≠ k) :
    assocGet (assocSet l k v) k' = assocGet l k' := by
  induction l with
  | nil => simp [assocSet, assocGet, Ne.symm h]
  | cons p l ih =>
    obtain ⟨pk, pv⟩ := p
    by_cases hk : pk = k
    · subst hk
      simp [assocSet, assocGet, Ne.symm h]
    · by_cases hk' : pk = k'
      · simp [assocSet, assocGet, hk, hk', h]
      · simp [assocSet, assocGet, hk, hk', ih]

theorem STInv_applySTOp {st : SymbolTable} (h : STInv st) (op : STOp) :
    STInv (applySTOp st op) := by
  obtain ⟨hg, hc⟩ := h
  cases op with
  | enterOp n =>
    simp only [applySTOp, enter_scope, STInv]
    by_cases hn : (assocGet st.symbols n).isSome = true
    · rw [if_pos hn]
      exact ⟨hg, hn⟩
    · rw [if_neg hn]
      constructor
      · rw [assocGet_append]
        cases hgv : assocGet st.symbols (some "global") with
        | none => rw [hgv] at hg; simp at hg
        | some v => simp
      · rw [assocGet_append]
        cases hnv : assocGet st.symbols n with
        | none => simp [assocGet]
        | some v => simp
  | exitOp => exact ⟨hg, hg⟩
  | addOp n ty =>
    simp only [applySTOp, add_symbol, add_symbol?, STInv]
    cases hcv : assocGet st.symbols st.currentScope with
    | none => rw [hcv] at hc; simp at hc
    | some scopeMap =>
      simp only [Option.getD_some]
      constructor
      · by_cases hgc : (some "global" : Option String) = st.currentScope
        · rw [hgc, assocGet_set_self]; rfl
        · rw [assocGet_set_other _ _ _ _ hgc]; exact hg
      · rw [assocGet_set_self]; rfl
  | lookupOp n => exact ⟨hg, hc⟩

theorem STInv_foldl (ops : List STOp) :
    ∀ st : SymbolTable, STInv st → STInv (ops.foldl applySTOp st) := by
  induction ops with
  | nil => intro st h; exact h
  | cons op ops ih =>
    intro st h
    exact ih _ (STInv_applySTOp h op)

/-- C10: starting from the initial table and applying any sequence of
`enter_scope` / `exit_scope` / `add_symbol` / `lookup` calls, the scope map
always contains the key `"global"` and the current scope is always a key of
the map; consequently the dictionary accesses of `add_symbol` and `lookup`
(indexing by the current scope and by `"global"`) are always defined. -/
theorem C10_symbol_table_invariant (ops : List STOp) :
    STInv (ops.foldl applySTOp initTable)
    ∧ (∀ (n : Option String) (ty : String),
        (add_symbol? (ops.foldl applySTOp initTable) n ty).isSome = true)
    ∧ (∀ n : Option String,
        (lookup? (ops.foldl applySTOp initTable) n).isSome = true) := by
  have hinv : STInv (ops.foldl applySTOp initTable) :=
    STInv_foldl ops initTable (by constructor <;> rfl)
  obtain ⟨hg, hc⟩ := hinv
  refine ⟨⟨hg, hc⟩, fun n ty => ?_, fun n => ?_⟩
  · unfold add_symbol?
    cases hcv : assocGet (ops.foldl applySTOp initTable).symbols
        (ops.foldl applySTOp initTable).currentScope with
    | none => rw [hcv] at hc; simp at hc
    | some scopeMap => rfl
  · unfold lookup?
    cases hcv : assocGet (ops.foldl applySTOp initTable).symbols
        (ops.foldl applySTOp initTable).currentScope with
    | none => rw [hcv] at hc; simp at hc
    | some cur =>
      dsimp only
      cases hn : assocGet cur n with
      | some s => rfl
      | none =>
        cases hgv : assocGet (ops.foldl applySTOp initTable).symbols
            (some "global") with
        | none => rw [hgv] at hg; simp at hg
        | some g => rfl

theorem lookup_add_self {st : SymbolTable} (v : Option String) (ty : String)
    (h : (assocGet st.symbols st.currentScope).isSome = true) :
    lookup (add_symbol st v ty) v = some ⟨v, ty, st.currentScope, none⟩ := by
  unfold add_symbol add_symbol?
  cases hcv : assocGet st.symbols st.currentScope with
  | none => rw [hcv] at h; simp at h
  | some scopeMap =>
    simp only [Option.getD_some]
    unfold lookup lookup?
    simp [assocGet_set_self]

/-- C5: on an ASSIGNMENT node whose target is not found by `lookup`, the
analyzer registers the target as a VARIABLE symbol in the current scope
before analyzing the right-hand expression; consequently for `x = x` with
`x` previously undefined the right-hand side finds the freshly registered
symbol and no `varNotDefined` error is appended (the error list is returned
unchanged and the target is defined afterwards). -/
theorem C5_assignment_registers_target_before_rhs (f : Nat) (st : SymbolTable)
    (errs : List SemErr) (v : Option String)
    (hscope : (assocGet st.symbols st.currentScope).isSome = true)
    (hundef : lookup st v = none) :
    analyzeNodeF (f + 2)
      (.mk "ASSIGNMENT" none
        (.cons (.mk "VARIABLE" v .nil) (.cons (.mk "VARIABLE" v .nil) .nil)))
      ⟨st, errs⟩
    = .ok ⟨add_symbol st v "VARIABLE", errs⟩
    ∧ lookup (add_symbol st v "VARIABLE") v
        = some ⟨v, "VARIABLE", st.currentScope, none⟩ := by
  have hadd := lookup_add_self v "VARIABLE" hscope
  refine ⟨?_, hadd⟩
  rw [show f + 2 = (f + 1) + 1 from rfl, analyzeNodeF]
  simp only [String.reduceEq, if_false, if_true, reduceIte, ASTNode.nval,
    hundef, Option.isSome_none, Bool.false_eq_true]
  rw [analyzeNodeF]
  simp only [String.reduceEq, if_false, if_true, reduceIte, hadd,
    Option.isSome_some]

/-- Witness for `C5_assignment_registers_target_before_rhs`: the initial
table, empty error list and target name "x". -/
theorem C5_assignment_registers_target_before_rhs_witness :
    ((assocGet initTable.symbols initTable.currentScope).isSome = true
      ∧ lookup initTable (some "x") = none)
    ∧ analyzeNodeF 2
        (.mk "ASSIGNMENT" none
          (.cons (.mk "VARIABLE" (some "x") .nil)
            (.cons (.mk "VARIABLE" (some "x") .nil) .nil)))
        ⟨initTable, []⟩
      = .ok ⟨add_symbol initTable (some "x") "VARIABLE", []⟩ :=
  ⟨⟨by decide, by decide⟩,
   (C5_assignment_registers_target_before_rhs 0 initTable [] (some "x")
     (by decide) (by decide)).1⟩

/-- C6 counterexample: the program consisting of two identical well-formed
FUNCTION_DEF nodes named "f" contains no VARIABLE and no FUNCTION_CALL node
at all — so no reference to any undefined symbol — yet `analyze` returns
`false` and the error list is the (non-empty) redefinition error, refuting
the claim as stated. -/
theorem C6_counterexample :
    (analyzeErrors
        (.mk "PROGRAM" none
          (.cons (.mk "FUNCTION_DEF" (some "f")
              (.cons (.mk "PARAMETERS" none .nil)
                (.cons (.mk "BLOCK" none .nil) .nil)))
            (.cons (.mk "FUNCTION_DEF" (some "f")
              (.cons (.mk "PARAMETERS" none .nil)
                (.cons (.mk "BLOCK" none .nil) .nil))) .nil)))).all
      (fun e => match e with
        | .varNotDefined _ => false
        | .funcNotDefined _ => false
        | _ => true) = true
    ∧ analyze
        (.mk "PROGRAM" none
          (.cons (.mk "FUNCTION_DEF" (some "f")
              (.cons (.mk "PARAMETERS" none .nil)
                (.cons (.mk "BLOCK" none .nil) .nil)))
            (.cons (.mk "FUNCTION_DEF" (some "f")
              (.cons (.mk "PARAMETERS" none .nil)
                (.cons (.mk "BLOCK" none .nil) .nil))) .nil))) = false
    ∧ analyzeErrors
        (.mk "PROGRAM" none
          (.cons (.mk "FUNCTION_DEF" (some "f")
              (.cons (.mk "PARAMETERS" none .nil)
                (.cons (.mk "BLOCK" none .nil) .nil)))
            (.cons (.mk "FUNCTION_DEF" (some "f")
              (.cons (.mk "PARAMETERS" none .nil)
                (.cons (.mk "BLOCK" none .nil) .nil))) .nil)))
      = [.funcAlreadyDefined (some "f")] := by
  refine ⟨?_, ?_, ?_⟩ <;> decide

/-- C6 amended: for every AST whose traversal completes without exception
and collects no undefined-variable, undefined-function, not-a-function or
redefinition error — the four error sites of the analyzer — `analyze`
returns true and the collected error list is empty. -/
theorem C6_amended_analyze_true_iff_no_errors (ast : ASTNode) (s : AState)
    (hok : analyzeNodeF (costN ast) ast initAState = .ok s)
    (hundef : ∀ n, SemErr.varNotDefined n ∉ s.errors
      ∧ SemErr.funcNotDefined n ∉ s.errors)
    (hkind : ∀ n, SemErr.notAFunction n ∉ s.errors)
    (hredef : ∀ n, SemErr.funcAlreadyDefined n ∉ s.errors) :
    analyze ast = true ∧ analyzeErrors ast = [] := by
  have herr : s.errors = [] := by
    cases hes : s.errors with
    | nil => rfl
    | cons e rest =>
      cases e with
      | funcAlreadyDefined n =>
        have hmem : SemErr.funcAlreadyDefined n ∈ s.errors := by
          rw [hes]; exact List.mem_cons_self _ _
        exact absurd hmem (hredef n)
      | funcNotDefined n =>
        have hmem : SemErr.funcNotDefined n ∈ s.errors := by
          rw [hes]; exact List.mem_cons_self _ _
        exact absurd hmem ((hundef n).2)
      | notAFunction n =>
        have hmem : SemErr.notAFunction n ∈ s.errors := by
          rw [hes]; exact List.mem_cons_self _ _
        exact absurd hmem (hkind n)
      | varNotDefined n =>
        have hmem : SemErr.varNotDefined n ∈ s.errors := by
          rw [hes]; exact List.mem_cons_self _ _
        exact absurd hmem ((hundef n).1)
  unfold analyze analyzeErrors
  rw [hok]
  simp [herr]

/-- Witness for `C6_amended_analyze_true_iff_no_errors`: the empty program
completes with no errors and `analyze` returns true. -/
theorem C6_amended_analyze_true_iff_no_errors_witness :
    analyzeNodeF (costN (.mk "PROGRAM" none .nil)) (.mk "PROGRAM" none .nil)
      initAState = .ok initAState
    ∧ analyze (.mk "PROGRAM" none .nil) = true
    ∧ analyzeErrors (.mk "PROGRAM" none .nil) = [] := by
  refine ⟨rfl, ?_, ?_⟩
  · exact (C6_amended_analyze_true_iff_no_errors (.mk "PROGRAM" none .nil)
      initAState rfl (fun n => ⟨by simp [initAState], by simp [initAState]⟩)
      (fun n => by simp [initAState]) (fun n => by simp [initAState])).1
  · exact (C6_amended_analyze_true_iff_no_errors (.mk "PROGRAM" none .nil)
      initAState rfl (fun n => ⟨by simp [initAState], by simp [initAState]⟩)
      (fun n => by simp [initAState]) (fun n => by simp [initAState])).2

/-- C3: the top-level `generate` never raises: for every AST node, including
malformed node shapes, either the traversal and the final formatting step
succeed and the formatted text is returned, or the traversal yields Python
`None` and the formatting step's exception is caught, or the traversal's own
exception is caught — in each caught case a one-line comment string
describing the error is returned; moreover the childless ASSIGNMENT node
concretely takes the caught-IndexError path. -/
theorem C3_generate_never_raises :
    (∀ ast : ASTNode,
      (∃ code, gen_node 0 ast = .ok (some code)
        ∧ generate ast = format_python_code code)
      ∨ (gen_node 0 ast = .ok none ∧ generate ast = errComment .attrErr)
      ∨ (∃ e, gen_node 0 ast = .error e ∧ generate ast = errComment e))
    ∧ generate (.mk "ASSIGNMENT" none .nil) = errComment .idxErr := by
  constructor
  · intro ast
    unfold generate
    cases h : gen_node 0 ast with
    | error e => right; right; exact ⟨e, rfl, rfl⟩
    | ok v =>
      cases v with
      | none => right; left; exact ⟨rfl, rfl⟩
      | some code => left; exact ⟨code, rfl, rfl⟩
  · rfl

theorem skipIf_ge (tks : List Token) (i : Nat) (ty v : String) :
    i ≤ skipIf tks i ty v := by
  unfold skipIf; split <;> omega

theorem skipIf_le (tks : List Token) (i : Nat) (ty v : String) :
    skipIf tks i ty v ≤ i + 1 := by
  unfold skipIf; split <;> omega

theorem parser_progress : ∀ f : Nat,
    (∀ tks i r, parse_statementF f tks i = .ok r → i < r.2)
    ∧ (∀ tks i r, parse_function_definitionF f tks i = .ok r → i < r.2)
    ∧ (∀ tks i r, parse_if_statementF f tks i = .ok r → i < r.2)
    ∧ (∀ tks i r, parse_loopF f tks i = .ok r → i < r.2)
    ∧ (∀ tks i r, parse_expression_statementF f tks i = .ok r → i < r.2)
    ∧ (∀ tks i r, parse_expressionF f tks i = .ok r → i < r.2)
    ∧ (∀ tks i r, parse_blockF f tks i = .ok r → i ≤ r.2)
    ∧ (∀ tks i acc r, params_loopF f tks i acc = .ok r → i ≤ r.2)
    ∧ (∀ tks i acc r, args_loopF f tks i acc = .ok r → i < r.2)
    ∧ (∀ tks i acc r, program_loopF f tks i acc = .ok r → i ≤ r.2) := by
  intro f
  induction f with
  | zero =>
    refine ⟨?_, ?_, ?_, ?_, ?_, ?_, ?_, ?_, ?_, ?_⟩ <;>
      (intros tks i
       intros
       simp [parse_statementF, parse_function_definitionF,
        parse_if_statementF, parse_loopF, parse_expression_statementF,
        parse_expressionF, parse_blockF, params_loopF, args_loopF,
        program_loopF] at *)
  | succ f ih =>
    obtain ⟨ihStmt, ihFun, ihIf, ihLoop, ihExprSt, ihExpr, ihBlock, ihParams,
      ihArgs, ihProg⟩ := ih
    refine ⟨?_, ?_, ?_, ?_, ?_, ?_, ?_, ?_, ?_, ?_⟩
    · -- parse_statementF
      intro tks i r h
      rw [parse_statementF] at h
      split at h
      · exact ihFun tks i r h
      · split at h
        · exact ihIf tks i r h
        · split at h
          · exact ihLoop tks i r h
          · exact ihExprSt tks i r h
    · -- parse_function_definitionF
      intro tks i r h
      rw [parse_function_definitionF] at h
      try dsimp only at h
      cases hp : (if ¬((currentTok tks (skipIf tks (i + 2) "DELIMITER" "(")).type
            = "DELIMITER"
            ∧ (currentTok tks (skipIf tks (i + 2) "DELIMITER" "(")).value = ")")
          then params_loopF f tks (skipIf tks (i + 2) "DELIMITER" "(") []
          else .ok ([], skipIf tks (i + 2) "DELIMITER" "(")) with
      | error e => rw [hp] at h; exact absurd h (by simp)
      | ok pr =>
        rw [hp] at h
        obtain ⟨params, j⟩ := pr
        have hj : skipIf tks (i + 2) "DELIMITER" "(" ≤ j := by
          split at hp
          · exact ihParams tks _ _ _ hp
          · rw [Except.ok.injEq, Prod.mk.injEq] at hp
            omega
        try dsimp only at h
        cases hb : parse_blockF f tks (skipIf tks j "DELIMITER" ")") with
        | error e => rw [hb] at h; exact absurd h (by simp)
        | ok br =>
          rw [hb] at h
          obtain ⟨body, k⟩ := br
          have hk : skipIf tks j "DELIMITER" ")" ≤ k := ihBlock tks _ _ hb
          have h1 := skipIf_ge tks (i + 2) "DELIMITER" "("
          have h2 := skipIf_ge tks j "DELIMITER" ")"
          rw [Except.ok.injEq] at h
          subst h
          dsimp only
          omega
    · -- parse_if_statementF
      intro tks i r h
      rw [parse_if_statementF] at h
      cases he : parse_expressionF f tks (i + 1) with
      | error e => rw [he] at h; exact absurd h (by simp)
      | ok er =>
        rw [he] at h
        obtain ⟨cond, j⟩ := er
        have hj : i + 1 < j := ihExpr tks _ _ he
        try dsimp only at h
        cases hb : parse_blockF f tks j with
        | error e => rw [hb] at h; exact absurd h (by simp)
        | ok br =>
          rw [hb] at h
          obtain ⟨thenB, k⟩ := br
          have hk : j ≤ k := ihBlock tks _ _ hb
          try dsimp only at h
          split at h
          · cases hb2 : parse_blockF f tks (k + 1) with
            | error e => rw [hb2] at h; exact absurd h (by simp)
            | ok br2 =>
              rw [hb2] at h
              obtain ⟨elseB, m⟩ := br2
              have hm : k + 1 ≤ m := ihBlock tks _ _ hb2
              rw [Except.ok.injEq] at h
              subst h
              dsimp only
              omega
          · rw [Except.ok.injEq] at h
            subst h
            dsimp only
            omega
    · -- parse_loopF
      intro tks i r h
      rw [parse_loopF] at h
      try dsimp only at h
      split at h
      · -- for branch
        split at h
        · split at h
          · cases he : parse_expressionF f tks (i + 3) with
            | error e => rw [he] at h; exact absurd h (by simp)
            | ok er =>
              rw [he] at h
              obtain ⟨iter, j⟩ := er
              have hj : i + 3 < j := ihExpr tks _ _ he
              try dsimp only at h
              cases hb : parse_blockF f tks j with
              | error e => rw [hb] at h; exact absurd h (by simp)
              | ok br =>
                rw [hb] at h
                obtain ⟨body, k⟩ := br
                have hk : j ≤ k := ihBlock tks _ _ hb
                rw [Except.ok.injEq] at h
                subst h
                dsimp only
                omega
          · exact absurd h (by simp)
        · exact absurd h (by simp)
      · -- while branch
        cases he : parse_expressionF f tks (i + 1) with
        | error e => rw [he] at h; exact absurd h (by simp)
        | ok er =>
          rw [he] at h
          obtain ⟨cond, j⟩ := er
          have hj : i + 1 < j := ihExpr tks _ _ he
          try dsimp only at h
          cases hb : parse_blockF f tks j with
          | error e => rw [hb] at h; exact absurd h (by simp)
          | ok br =>
            rw [hb] at h
            obtain ⟨body, k⟩ := br
            have hk : j ≤ k := ihBlock tks _ _ hb
            rw [Except.ok.injEq] at h
            subst h
            dsimp only
            omega
    · -- parse_expression_statementF
      intro tks i r h
      rw [parse_expression_statementF] at h
      split at h
      · try dsimp only at h
        cases he : parse_expressionF f tks (i + 2) with
        | error e => rw [he] at h; exact absurd h (by simp)
        | ok er =>
          rw [he] at h
          obtain ⟨ex, j⟩ := er
          have hj : i + 2 < j := ihExpr tks _ _ he
          rw [Except.ok.injEq] at h
          subst h
          dsimp only
          omega
      · have := ihExpr tks _ _ h
        omega
    · -- parse_expressionF
      intro tks i r h
      rw [parse_expressionF] at h
      try dsimp only at h
      split at h
      · rw [Except.ok.injEq] at h; subst h; dsimp only; omega
      · split at h
        · rw [Except.ok.injEq] at h; subst h; dsimp only; omega
        · split at h
          · -- IDENTIFIER
            split at h
            · -- call
              cases ha : (if ¬((currentTok tks (i + 2)).type = "DELIMITER"
                    ∧ (currentTok tks (i + 2)).value = ")")
                  then args_loopF f tks (i + 2) [] else .ok ([], i + 2)) with
              | error e => rw [ha] at h; exact absurd h (by simp)
              | ok ar =>
                rw [ha] at h
                obtain ⟨args, k⟩ := ar
                have hk : i + 2 ≤ k := by
                  split at ha
                  · have := ihArgs tks _ _ _ ha
                    omega
                  · rw [Except.ok.injEq, Prod.mk.injEq] at ha
                    omega
                try dsimp only at h
                split at h
                · rw [Except.ok.injEq] at h
                  subst h
                  dsimp only
                  omega
                · exact absurd h (by simp)
            · rw [Except.ok.injEq] at h; subst h; dsimp only; omega
          · split at h
            · -- parenthesized
              cases he : parse_expressionF f tks (i + 1) with
              | error e => rw [he] at h; exact absurd h (by simp)
              | ok er =>
                rw [he] at h
                obtain ⟨ex, j⟩ := er
                have hj : i + 1 < j := ihExpr tks _ _ he
                try dsimp only at h
                split at h
                · rw [Except.ok.injEq] at h
                  subst h
                  dsimp only
                  omega
                · exact absurd h (by simp)
            · rw [Except.ok.injEq] at h; subst h; dsimp only; omega
    · -- parse_blockF
      intro tks i r h
      rw [parse_blockF] at h
      try dsimp only at h
      have hsk := skipIf_ge tks i "DELIMITER" ":"
      split at h
      · rw [Except.ok.injEq] at h; subst h; dsimp only; omega
      · cases hs : parse_statementF f tks (skipIf tks i "DELIMITER" ":") with
        | error e => rw [hs] at h; exact absurd h (by simp)
        | ok sr =>
          rw [hs] at h
          obtain ⟨st, j⟩ := sr
          have hj : skipIf tks i "DELIMITER" ":" < j := ihStmt tks _ _ hs
          rw [Except.ok.injEq] at h
          subst h
          dsimp only
          omega
    · -- params_loopF
      intro tks i acc r h
      rw [params_loopF] at h
      split at h
      · try dsimp only at h
        split at h
        · have := ihParams tks _ _ _ h
          omega
        · rw [Except.ok.injEq] at h; subst h; dsimp only; omega
      · rw [Except.ok.injEq] at h; subst h; dsimp only; omega
    · -- args_loopF
      intro tks i acc r h
      rw [args_loopF] at h
      cases he : parse_expressionF f tks i with
      | error e => rw [he] at h; exact absurd h (by simp)
      | ok er =>
        rw [he] at h
        obtain ⟨arg, j⟩ := er
        have hj : i < j := ihExpr tks _ _ he
        try dsimp only at h
        split at h
        · have := ihArgs tks _ _ _ h
          omega
        · rw [Except.ok.injEq] at h; subst h; dsimp only; omega
    · -- program_loopF
      intro tks i acc r h
      rw [program_loopF] at h
      split at h
      · rw [Except.ok.injEq] at h; subst h; dsimp only; omega
      · cases hs : parse_statementF f tks i with
        | error e => rw [hs] at h; exact absurd h (by simp)
        | ok sr =>
          rw [hs] at h
          obtain ⟨st, j⟩ := sr
          have hj : i < j := ihStmt tks _ _ hs
          have := ihProg tks _ _ _ h
          omega

theorem currentTok_lt {tks : List Token} {i : Nat}
    (h : (currentTok tks i).type ≠ "EOF") : i < tks.length := by
  by_contra hge
  rw [currentTok, List.getD_eq_getElem?_getD, List.getElem?_eq_none (by omega)] at h
  exact h rfl

theorem peekTok_lt {tks : List Token} {i : Nat}
    (h : (peekTok tks i).type ≠ "EOF") : i + 1 < tks.length := by
  by_contra hge
  rw [peekTok, List.getD_eq_getElem?_getD, List.getElem?_eq_none (by omega)] at h
  exact h rfl

theorem parser_fuel_sufficient : ∀ f : Nat,
    (∀ tks i, i < tks.length → 6 * (tks.length + 2 - i) + 4 ≤ f →
      parse_statementF f tks i ≠ .error .fuelErr)
    ∧ (∀ tks i, i < tks.length → 6 * (tks.length + 2 - i) + 3 ≤ f →
      parse_function_definitionF f tks i ≠ .error .fuelErr)
    ∧ (∀ tks i, i < tks.length → 6 * (tks.length + 2 - i) + 3 ≤ f →
      parse_if_statementF f tks i ≠ .error .fuelErr)
    ∧ (∀ tks i, i < tks.length → 6 * (tks.length + 2 - i) + 3 ≤ f →
      parse_loopF f tks i ≠ .error .fuelErr)
    ∧ (∀ tks i, i < tks.length → 6 * (tks.length + 2 - i) + 3 ≤ f →
      parse_expression_statementF f tks i ≠ .error .fuelErr)
    ∧ (∀ tks i, 6 * (tks.length + 2 - i) + 2 ≤ f →
      parse_expressionF f tks i ≠ .error .fuelErr)
    ∧ (∀ tks i, 6 * (tks.length + 2 - i) + 5 ≤ f →
      parse_blockF f tks i ≠ .error .fuelErr)
    ∧ (∀ tks i acc, 6 * (tks.length + 2 - i) + 1 ≤ f →
      params_loopF f tks i acc ≠ .error .fuelErr)
    ∧ (∀ tks i acc, 6 * (tks.length + 2 - i) + 3 ≤ f →
      args_loopF f tks i acc ≠ .error .fuelErr)
    ∧ (∀ tks i acc, 6 * (tks.length + 2 - i) + 5 ≤ f →
      program_loopF f tks i acc ≠ .error .fuelErr) := by
  intro f
  induction f with
  | zero =>
    refine ⟨?_, ?_, ?_, ?_, ?_, ?_, ?_, ?_, ?_, ?_⟩ <;> (intros; omega)
  | succ f ih =>
    obtain ⟨ihStmt, ihFun, ihIf, ihLoop, ihExprSt, ihExpr, ihBlock, ihParams,
      ihArgs, ihProg⟩ := ih
    have pgStmt := (parser_progress f).1
    have pgExpr := (parser_progress f).2.2.2.2.2.1
    have pgBlock := (parser_progress f).2.2.2.2.2.2.1
    have pgParams := (parser_progress f).2.2.2.2.2.2.2.1
    refine ⟨?_, ?_, ?_, ?_, ?_, ?_, ?_, ?_, ?_, ?_⟩
    · -- parse_statementF
      intro tks i hiL hb
      rw [parse_statementF]
      split
      · exact ihFun tks i hiL (by omega)
      · split
        · exact ihIf tks i hiL (by omega)
        · split
          · exact ihLoop tks i hiL (by omega)
          · exact ihExprSt tks i hiL (by omega)
    · -- parse_function_definitionF
      intro tks i hiL hb
      rw [parse_function_definitionF]
      try dsimp only
      have hsk1 : i + 2 ≤ skipIf tks (i + 2) "DELIMITER" "(" :=
        skipIf_ge tks (i + 2) "DELIMITER" "("
      cases hp : (if ¬((currentTok tks (skipIf tks (i + 2) "DELIMITER" "(")).type
            = "DELIMITER"
            ∧ (currentTok tks (skipIf tks (i + 2) "DELIMITER" "(")).value = ")")
          then params_loopF f tks (skipIf tks (i + 2) "DELIMITER" "(") []
          else .ok ([], skipIf tks (i + 2) "DELIMITER" "(")) with
      | error e =>
        try dsimp only
        intro hc
        injection hc with hc
        subst hc
        revert hp
        split
        · intro hp
          exact ihParams tks _ [] (by omega) hp
        · intro hp
          exact absurd hp (by simp)
      | ok pr =>
        obtain ⟨params, j⟩ := pr
        try dsimp only
        have hj : skipIf tks (i + 2) "DELIMITER" "(" ≤ j := by
          split at hp
          · exact pgParams tks _ _ _ hp
          · rw [Except.ok.injEq, Prod.mk.injEq] at hp
            omega
        have hsk2 : j ≤ skipIf tks j "DELIMITER" ")" := skipIf_ge tks j "DELIMITER" ")"
        cases hbk : parse_blockF f tks (skipIf tks j "DELIMITER" ")") with
        | error e =>
          try dsimp only
          intro hc
          injection hc with hc
          subst hc
          exact ihBlock tks _ (by omega) hbk
        | ok br =>
          obtain ⟨body, k⟩ := br
          simp
    · -- parse_if_statementF
      intro tks i hiL hb
      rw [parse_if_statementF]
      cases he : parse_expressionF f tks (i + 1) with
      | error e =>
        try dsimp only
        intro hc
        injection hc with hc
        subst hc
        exact ihExpr tks (i + 1) (by omega) he
      | ok er =>
        obtain ⟨cond, j⟩ := er
        try dsimp only
        have hj : i + 1 < j := pgExpr tks _ _ he
        cases hbk : parse_blockF f tks j with
        | error e =>
          try dsimp only
          intro hc
          injection hc with hc
          subst hc
          exact ihBlock tks j (by omega) hbk
        | ok br =>
          obtain ⟨thenB, k⟩ := br
          try dsimp only
          have hk : j ≤ k := pgBlock tks _ _ hbk
          split
          · next hcond =>
            have hkL : k < tks.length := currentTok_lt (by rw [hcond.1]; decide)
            cases hbk2 : parse_blockF f tks (k + 1) with
            | error e =>
              try dsimp only
              intro hc
              injection hc with hc
              subst hc
              exact ihBlock tks (k + 1) (by omega) hbk2
            | ok br2 =>
              obtain ⟨elseB, m⟩ := br2
              simp
          · simp
    · -- parse_loopF
      intro tks i hiL hb
      rw [parse_loopF]
      try dsimp only
      split
      · -- for
        split
        · next hid =>
          have hi1L : i + 1 < tks.length := currentTok_lt (by rw [hid]; decide)
          split
          · next hin =>
            have hi2L : i + 2 < tks.length := currentTok_lt (by rw [hin.1]; decide)
            cases he : parse_expressionF f tks (i + 3) with
            | error e =>
              try dsimp only
              intro hc
              injection hc with hc
              subst hc
              exact ihExpr tks (i + 3) (by omega) he
            | ok er =>
              obtain ⟨iter, j⟩ := er
              try dsimp only
              have hj : i + 3 < j := pgExpr tks _ _ he
              cases hbk : parse_blockF f tks j with
              | error e =>
                try dsimp only
                intro hc
                injection hc with hc
                subst hc
                exact ihBlock tks j (by omega) hbk
              | ok br =>
                obtain ⟨body, k⟩ := br
                simp
          · simp
        · simp
      · -- while
        cases he : parse_expressionF f tks (i + 1) with
        | error e =>
          try dsimp only
          intro hc
          injection hc with hc
          subst hc
          exact ihExpr tks (i + 1) (by omega) he
        | ok er =>
          obtain ⟨cond, j⟩ := er
          try dsimp only
          have hj : i + 1 < j := pgExpr tks _ _ he
          cases hbk : parse_blockF f tks j with
          | error e =>
            try dsimp only
            intro hc
            injection hc with hc
            subst hc
            exact ihBlock tks j (by omega) hbk
          | ok br =>
            obtain ⟨body, k⟩ := br
            simp
    · -- parse_expression_statementF
      intro tks i hiL hb
      rw [parse_expression_statementF]
      split
      · next hcond =>
        have hi1L : i + 1 < tks.length := peekTok_lt (by rw [hcond.2.1]; decide)
        try dsimp only
        cases he : parse_expressionF f tks (i + 2) with
        | error e =>
          try dsimp only
          intro hc
          injection hc with hc
          subst hc
          exact ihExpr tks (i + 2) (by omega) he
        | ok er =>
          obtain ⟨ex, j⟩ := er
          simp
      · exact ihExpr tks i (by omega)
    · -- parse_expressionF
      intro tks i hb
      rw [parse_expressionF]
      try dsimp only
      split
      · simp
      · split
        · simp
        · split
          · next hid =>
            have hiL : i < tks.length := currentTok_lt (by rw [hid]; decide)
            split
            · next hpar =>
              have hi1L : i + 1 < tks.length := currentTok_lt (by rw [hpar.1]; decide)
              cases ha : (if ¬((currentTok tks (i + 2)).type = "DELIMITER"
                    ∧ (currentTok tks (i + 2)).value = ")")
                  then args_loopF f tks (i + 2) [] else .ok ([], i + 2)) with
              | error e =>
                try dsimp only
                intro hc
                injection hc with hc
                subst hc
                revert ha
                split
                · intro ha
                  exact ihArgs tks (i + 2) [] (by omega) ha
                · intro ha
                  exact absurd ha (by simp)
              | ok ar =>
                obtain ⟨args, k⟩ := ar
                try dsimp only
                split
                · simp
                · simp
            · simp
          · split
            · next hpar =>
              have hiL : i < tks.length := currentTok_lt (by rw [hpar.1]; decide)
              cases he : parse_expressionF f tks (i + 1) with
              | error e =>
                try dsimp only
                intro hc
                injection hc with hc
                subst hc
                exact ihExpr tks (i + 1) (by omega) he
              | ok er =>
                obtain ⟨ex, j⟩ := er
                try dsimp only
                split
                · simp
                · simp
            · simp
    · -- parse_blockF
      intro tks i hb
      rw [parse_blockF]
      try dsimp only
      have hsk : i ≤ skipIf tks i "DELIMITER" ":" := skipIf_ge tks i "DELIMITER" ":"
      split
      · simp
      · next hne =>
        have hiL : skipIf tks i "DELIMITER" ":" < tks.length := currentTok_lt hne
        cases hs : parse_statementF f tks (skipIf tks i "DELIMITER" ":") with
        | error e =>
          try dsimp only
          intro hc
          injection hc with hc
          subst hc
          exact ihStmt tks _ hiL (by omega) hs
        | ok sr =>
          obtain ⟨st, j⟩ := sr
          simp
    · -- params_loopF
      intro tks i acc hb
      rw [params_loopF]
      split
      · next hid =>
        have hiL : i < tks.length := currentTok_lt (by rw [hid]; decide)
        try dsimp only
        split
        · next hcomma =>
          have hi1L : i + 1 < tks.length := currentTok_lt (by rw [hcomma.1]; decide)
          exact ihParams tks (i + 2) _ (by omega)
        · simp
      · simp
    · -- args_loopF
      intro tks i acc hb
      rw [args_loopF]
      cases he : parse_expressionF f tks i with
      | error e =>
        try dsimp only
        intro hc
        injection hc with hc
        subst hc
        exact ihExpr tks i (by omega) he
      | ok er =>
        obtain ⟨arg, j⟩ := er
        try dsimp only
        have hj : i < j := pgExpr tks _ _ he
        split
        · next hcomma =>
          have hjL : j < tks.length := currentTok_lt (by rw [hcomma.1]; decide)
          exact ihArgs tks (j + 1) _ (by omega)
        · simp
    · -- program_loopF
      intro tks i acc hb
      rw [program_loopF]
      split
      · simp
      · next hne =>
        have hiL : i < tks.length := currentTok_lt hne
        cases hs : parse_statementF f tks i with
        | error e =>
          try dsimp only
          intro hc
          injection hc with hc
          subst hc
          exact ihStmt tks i hiL (by omega) hs
        | ok sr =>
          obtain ⟨st, j⟩ := sr
          try dsimp only
          have hj : i < j := pgStmt tks _ _ hs
          exact ihProg tks j _ (by omega)

/-- C2: `parse` never propagates an exception to its caller: for every token
list it returns an AST root on success and `None` on failure, and the only
two raise sites — an `expect` whose current token type differs from the
expected type (`expectErr`), and a for-loop whose variable is not followed
by the keyword `in` (`inErr`) — are the only ways `parse` can return `None`
(in particular the embedding's fuel never runs out). -/
theorem C2_parse_total_two_failure_modes (tks : List Token) :
    (∃ ast j, parse_programF (parserFuel tks) tks = .ok (ast, j)
      ∧ parse tks = some ast)
    ∨ (∃ e, parse_programF (parserFuel tks) tks = .error e
      ∧ parse tks = none
      ∧ ((∃ exp fnd, e = .expectErr exp fnd) ∨ e = .inErr)) := by
  cases h : parse_programF (parserFuel tks) tks with
  | ok r =>
    obtain ⟨ast, j⟩ := r
    left
    exact ⟨ast, j, rfl, by rw [parse, h]⟩
  | error e =>
    right
    refine ⟨e, rfl, by rw [parse, h], ?_⟩
    cases e with
    | expectErr a b => exact Or.inl ⟨a, b, rfl⟩
    | inErr => exact Or.inr rfl
    | fuelErr =>
      exfalso
      have hsuff := (parser_fuel_sufficient (6 * tks.length + 17)).2.2.2.2.2.2.2.2.2
        tks 0 [] (by omega)
      rw [show parserFuel tks = (6 * tks.length + 17) + 1 from rfl,
        parse_programF] at h
      cases hp : program_loopF (6 * tks.length + 17) tks 0 [] with
      | ok pr => rw [hp] at h; simp at h
      | error e2 =>
        rw [hp] at h
        injection h with h
        subst h
        exact hsuff hp

/-- C4: every BLOCK node built by `parse_block` contains at most one
statement child: after the optional `':'` is consumed (or a warning printed
when absent), exactly one statement is parsed when the current token is not
EOF — any further statements are not children of this block — and none
otherwise. -/
theorem C4_parse_block_at_most_one_statement (f : Nat) (tks : List Token)
    (i : Nat) (n : ASTNode) (j : Nat)
    (h : parse_blockF (f + 1) tks i = .ok (n, j)) :
    n.ntype = "BLOCK"
    ∧ n.children.length ≤ 1
    ∧ ((currentTok tks (skipIf tks i "DELIMITER" ":")).type = "EOF" →
        n.children = .nil)
    ∧ ((currentTok tks (skipIf tks i "DELIMITER" ":")).type ≠ "EOF" →
        ∃ st, n.children = .cons st .nil) := by
  rw [parse_blockF] at h
  try dsimp only at h
  split at h
  · next heof =>
    rw [Except.ok.injEq, Prod.mk.injEq] at h
    obtain ⟨h1, _⟩ := h
    subst h1
    exact ⟨rfl, by simp [ASTNode.children, ASTList.length],
      fun _ => rfl, fun hne => absurd heof hne⟩
  · next hne =>
    cases hs : parse_statementF f tks (skipIf tks i "DELIMITER" ":") with
    | error e => rw [hs] at h; exact absurd h (by simp)
    | ok sr =>
      rw [hs] at h
      obtain ⟨st, k⟩ := sr
      rw [Except.ok.injEq, Prod.mk.injEq] at h
      obtain ⟨h1, _⟩ := h
      subst h1
      exact ⟨rfl, by simp [ASTNode.children, ASTList.length],
        fun heof => absurd heof hne, fun _ => ⟨st, rfl⟩⟩

/-- Witness for `C4_parse_block_at_most_one_statement`: on the token list
`: 1 2 EOF` the block keeps only the first statement (the literal `1`) and
stops at the second. -/
theorem C4_parse_block_at_most_one_statement_witness :
    parse_blockF 12
        [⟨"DELIMITER", ":", 0⟩, ⟨"INTEGER", "1", 1⟩, ⟨"INTEGER", "2", 2⟩,
          ⟨"EOF", "", 3⟩] 0
      = .ok (.mk "BLOCK" none (.cons (.mk "LITERAL" (some "1") .nil) .nil), 2)
    ∧ (ASTNode.mk "BLOCK" none
        (.cons (.mk "LITERAL" (some "1") .nil) .nil)).children.length ≤ 1 := by
  refine ⟨rfl, ?_⟩
  exact (C4_parse_block_at_most_one_statement 11
    [⟨"DELIMITER", ":", 0⟩, ⟨"INTEGER", "1", 1⟩, ⟨"INTEGER", "2", 2⟩,
      ⟨"EOF", "", 3⟩] 0
    (.mk "BLOCK" none (.cons (.mk "LITERAL" (some "1") .nil) .nil)) 2 rfl).2.1

theorem costN_pos (n : ASTNode) : 1 ≤ costN n := by
  cases n with
  | mk t v cs => rw [costN]; omega

theorem costL_pos (l : ASTList) : 1 ≤ costL l := by
  cases l with
  | nil => rw [costL]
  | cons c rest => rw [costL]; omega


set_option maxHeartbeats 1600000 in
theorem analyzer_fuel_sufficient : ∀ f : Nat,
    (∀ (n : ASTNode) (s s' : AState), costN n ≤ f →
      analyzeNodeF f n s ≠ .error (.fuelErr, s'))
    ∧ (∀ (l : ASTList) (s s' : AState), costL l ≤ f →
      analyzeChildrenF f l s ≠ .error (.fuelErr, s')) := by
  intro f
  induction f with
  | zero =>
    constructor
    · intro n s s' hc
      have := costN_pos n
      omega
    · intro l s s' hc
      have := costL_pos l
      omega
  | succ f ih =>
    obtain ⟨ihN, ihL⟩ := ih
    constructor
    · intro n s s' hc
      cases n with
      | mk t v cs =>
        cases cs with
        | nil =>
          rw [analyzeNodeF]
          split
          · exact ihL .nil s s' (by simp only [costN, costL] at hc ⊢; omega)
          · split
            · simp
            · split
              · exact ihL .nil s s'
                  (by simp only [costN, costL] at hc ⊢; omega)
              · split
                · simp
                · split
                  · simp
                  · split
                    · simp
                    · split
                      · simp
                      · split
                        · simp
                        · split
                          · split <;> simp
                          · exact ihL .nil s s'
                              (by simp only [costN, costL] at hc ⊢; omega)
        | cons head tl =>
          rw [analyzeNodeF]
          split
          · exact ihL _ s s' (by simp only [costN, costL] at hc; (try simp only [costN, costL]); omega)
          · split
            · -- FUNCTION_DEF
              try dsimp only
              cases tl with
              | nil => simp
              | cons body tl2 =>
                try dsimp only
                split
                · rename_i e heq
                  intro hx
                  injection hx with hx
                  subst hx
                  exact ihN body _ s'
                    (by simp only [costN, costL] at hc; omega) heq
                · simp
            · split
              · exact ihL _ s s' (by simp only [costN, costL] at hc; (try simp only [costN, costL]); omega)
              · split
                · -- IF_STATEMENT
                  split
                  · rename_i e heq
                    intro hx
                    injection hx with hx
                    subst hx
                    exact ihN head s s'
                      (by simp only [costN, costL] at hc; omega) heq
                  · rename_i s1 heq
                    cases tl with
                    | nil => simp
                    | cons c1 tl2 =>
                      try dsimp only
                      split
                      · rename_i e2 heq2
                        intro hx
                        injection hx with hx
                        subst hx
                        exact ihN c1 s1 s'
                          (by simp only [costN, costL] at hc; omega) heq2
                      · rename_i s2 heq2
                        cases tl2 with
                        | nil => simp
                        | cons c2 tl3 =>
                          try dsimp only
                          exact ihN c2 s2 s'
                            (by simp only [costN, costL] at hc; omega)
                · split
                  · -- FOR_LOOP
                    try dsimp only
                    cases tl with
                    | nil => simp
                    | cons c1 tl2 =>
                      try dsimp only
                      split
                      · rename_i e heq
                        intro hx
                        injection hx with hx
                        subst hx
                        exact ihN c1 _ s'
                          (by simp only [costN, costL] at hc; omega) heq
                      · rename_i s2 heq
                        cases tl2 with
                        | nil => simp
                        | cons c2 tl3 =>
                          try dsimp only
                          exact ihN c2 s2 s'
                            (by simp only [costN, costL] at hc; omega)
                  · split
                    · -- WHILE_LOOP
                      split
                      · rename_i e heq
                        intro hx
                        injection hx with hx
                        subst hx
                        exact ihN head s s'
                          (by simp only [costN, costL] at hc; omega) heq
                      · rename_i s1 heq
                        cases tl with
                        | nil => simp
                        | cons c1 tl2 =>
                          try dsimp only
                          exact ihN c1 s1 s'
                            (by simp only [costN, costL] at hc; omega)
                    · split
                      · -- ASSIGNMENT
                        try dsimp only
                        cases tl with
                        | nil => simp
                        | cons c1 tl2 =>
                          try dsimp only
                          exact ihN c1 _ s'
                            (by simp only [costN, costL] at hc; omega)
                      · split
                        · -- FUNCTION_CALL
                          try dsimp only
                          cases head with
                          | mk t0 v0 ch =>
                            exact ihL ch _ s'
                              (by simp only [costN, costL,
                                ASTNode.children] at hc ⊢; omega)
                        · split
                          · -- VARIABLE
                            split <;> simp
                          · exact ihL _ s s'
                              (by simp only [costN, costL] at hc; (try simp only [costN, costL]); omega)
    · intro l s s' hc
      cases l with
      | nil =>
        rw [analyzeChildrenF]
        simp
      | cons c rest =>
        rw [analyzeChildrenF]
        split
        · rename_i e heq
          intro hx
          injection hx with hx
          subst hx
          exact ihN c s s' (by simp only [costL] at hc; omega) heq
        · rename_i s1 heq
          exact ihL rest s1 s' (by simp only [costL] at hc; omega)
